import Mathlib

/-!
# Verification of the Bank-Statement-Parser reconciliation pipeline

A shallow embedding of `process_bank_statement.py` (the single source file of
the repository).  Python's dynamic values are modelled by the inductive type
`PyVal`; Python floats are modelled exactly as signed decimal numbers
`man * 10^(-exp)` (`PyFloat`), which is faithful for every value this pipeline
actually constructs (all of them are parsed from, or printed to, finite
decimal strings; IEEE rounding and infinities are outside the model).
Code that can raise a Python exception is modelled in `Except String`;
`.error` means the original function throws.

Every definition is translated from the source; regular expressions are
translated operator by operator, with Python's leftmost / alternation /
greedy-with-backtracking semantics made explicit.  Character classes `\d`
and `\s` are modelled by their ASCII parts, and `str.lower` by ASCII
lowering, which agrees with Python on every string the claims touch.
-/

/-- An exact model of a Python float appearing in this pipeline: the value
`man * 10^(-exp)`.  All floats the pipeline constructs come from finite
decimal literals, so this decimal model is exact for them. -/
structure PyFloat where
  man : Int
  exp : Nat
deriving DecidableEq, Repr

/-- A Python value as it can occur in the pipeline's payloads: `None`,
booleans, ints, floats, strings, lists and (string-keyed) dicts. -/
inductive PyVal where
  | none
  | bool (b : Bool)
  | int (n : Int)
  | float (f : PyFloat)
  | str (s : String)
  | list (xs : List PyVal)
  | dict (kvs : List (String × PyVal))

/-- Numeric equality of two model floats (Python `==` on floats):
`a.man/10^a.exp = b.man/10^b.exp`. -/
def pfEqv (a b : PyFloat) : Bool :=
  a.man * (10 : Int) ^ b.exp == b.man * (10 : Int) ^ a.exp

/-- Numeric strict order on model floats (Python `<` on floats). -/
def pfLt (a b : PyFloat) : Bool :=
  decide (a.man * (10 : Int) ^ b.exp < b.man * (10 : Int) ^ a.exp)

/-- Python truthiness (`bool(x)`): `None`/`False`/`0`/`0.0`/`""`/`[]`/dict()
are falsy, everything else truthy. -/
def pyTruthy : PyVal → Bool
  | .none => false
  | .bool b => b
  | .int n => n != 0
  | .float f => f.man != 0
  | .str s => !s.data.isEmpty
  | .list xs => !xs.isEmpty
  | .dict kvs => !kvs.isEmpty

/-- Python's `a or b`: `a` if truthy, else `b`. -/
def pyOr (a b : PyVal) : PyVal := if pyTruthy a then a else b

/-- `d.get(k)` on a dict's entry list: first binding wins, missing key gives
`None` (Python's `dict.get` default).  Python dicts cannot hold a key twice,
so on payloads that model actual Python values this is exact. -/
def dictLookup (kvs : List (String × PyVal)) (k : String) : PyVal :=
  match kvs.find? (fun p => p.1 == k) with
  | some p => p.2
  | Option.none => .none

/-- `v.get(k)` where `v` is statically known (from `_coerce_extracted`) to be
a dict; non-dict inputs give `None` (unreachable at its call sites). -/
def pyGetD (v : PyVal) (k : String) : PyVal :=
  match v with
  | .dict kvs => dictLookup kvs k
  | _ => .none

/-- `v.get(k)` on an arbitrary value: raises `AttributeError` when `v` is not
a dict, exactly like Python. -/
def pyGetAttr (v : PyVal) (k : String) : Except String PyVal :=
  match v with
  | .dict kvs => .ok (dictLookup kvs k)
  | _ => .error "AttributeError: object has no attribute get"

/-- `for t in v`: lists yield their elements, strings their characters,
dicts their keys; every other truthy value raises `TypeError`. -/
def pyIter (v : PyVal) : Except String (List PyVal) :=
  match v with
  | .list xs => .ok xs
  | .str s => .ok (s.toList.map fun c => .str (String.mk [c]))
  | .dict kvs => .ok (kvs.map fun p => .str p.1)
  | _ => .error "TypeError: object is not iterable"

/-! ## Character helpers (ASCII parts of `\d`, `\s`, `str.lower`, `str.strip`) -/

/-- The ASCII decimal digits, the part of `\d` the pipeline's data uses
(code points 48-57, i.e. `c.isDigit`). -/
def isDig (c : Char) : Bool := 48 ≤ c.toNat && c.toNat ≤ 57

/-- Digit value of an ASCII digit character. -/
def charToDigit (c : Char) : Nat := c.toNat - 48

/-- The decimal digit character for `d % 10`. -/
def digitChar (d : Nat) : Char :=
  match d % 10 with
  | 0 => '0' | 1 => '1' | 2 => '2' | 3 => '3' | 4 => '4'
  | 5 => '5' | 6 => '6' | 7 => '7' | 8 => '8' | _ => '9'

/-- Value of a digit string, most significant digit first. -/
def natOfDigits (ds : List Char) : Nat :=
  ds.foldl (fun a c => a * 10 + charToDigit c) 0

/-- `%02d` for the regex-bounded values (`n ≤ 99` at every call site). -/
def pad2 (n : Nat) : List Char := [digitChar (n / 10), digitChar n]

/-- `%04d` for the regex-bounded values (`n ≤ 9999` at every call site). -/
def pad4 (n : Nat) : List Char :=
  [digitChar (n / 1000), digitChar (n / 100), digitChar (n / 10), digitChar n]

/-- Python's whitespace class (`\s`, `str.strip()`), ASCII part. -/
def isPySpace (c : Char) : Bool :=
  c = ' ' || c = '\t' || c = '\n' || c = '\r' || c = '\x0b' || c = '\x0c'

/-- `str.strip()`: drop leading and trailing whitespace. -/
def pyStripL (cs : List Char) : List Char :=
  ((cs.dropWhile isPySpace).reverse.dropWhile isPySpace).reverse

/-- `str.strip()` on strings. -/
def pyStripStr (s : String) : String := String.mk (pyStripL s.toList)

/-- `str.lower()` (ASCII case folding, agreeing with Python on ASCII). -/
def pyLower (s : String) : String := String.mk (s.toList.map Char.toLower)

/-- Substring test `needle in hay` for Python's `in` on strings. -/
def listStartsWith : List Char → List Char → Bool
  | _, [] => true
  | [], _ :: _ => false
  | a :: xs, b :: ys => a == b && listStartsWith xs ys

/-- `needle in hay` (Python substring containment). -/
def containsSub (hay needle : List Char) : Bool :=
  if listStartsWith hay needle then true
  else
    match hay with
    | [] => false
    | _ :: rest => containsSub rest needle

/-! ## Exact decimal floats: canonical form, repr, parsing -/

/-- Strip factors of 10 (fuel-driven so that it reduces in the kernel). -/
def pfCanonAux (m : Int) (k : Nat) : Nat → PyFloat
  | 0 => ⟨m, k⟩
  | fuel + 1 =>
    if k = 0 then ⟨m, 0⟩
    else if m % 10 = 0 then pfCanonAux (m / 10) (k - 1) fuel
    else ⟨m, k⟩

/-- Canonical form of `m * 10^(-k)`: mantissa not divisible by 10 (or the
value is zero).  Distinct canonical forms denote distinct reals, so after
canonicalisation structural equality is numeric equality. -/
def pfCanon (m : Int) (k : Nat) : PyFloat :=
  if m = 0 then ⟨0, 0⟩ else pfCanonAux m k k

/-- Exact float addition. -/
def pfAdd (a b : PyFloat) : PyFloat :=
  pfCanon (a.man * (10 : Int) ^ b.exp + b.man * (10 : Int) ^ a.exp) (a.exp + b.exp)

/-- Exact division by two (`x / 2.0`; exact on decimals). -/
def pfHalf (a : PyFloat) : PyFloat :=
  if a.man % 2 = 0 then pfCanon (a.man / 2) a.exp else pfCanon (a.man * 5) (a.exp + 1)

/-- Python's `round(x, 2)` (round-half-to-even) on the decimal model. -/
def pfRound2 (f : PyFloat) : PyFloat :=
  if f.exp ≤ 2 then f
  else
    let sh : Nat := 10 ^ (f.exp - 2)
    let n := f.man.natAbs
    let q := n / sh
    let r := n % sh
    let q2 := if 2 * r < sh then q
              else if sh < 2 * r then q + 1
              else if q % 2 = 0 then q else q + 1
    pfCanon (if f.man < 0 then -(q2 : Int) else (q2 : Int)) 2

/-- Python's `repr`/`str` of a float: positional notation when the decimal
exponent is in `[-4, 16)`, scientific (`1e-05`, `1e+16`) otherwise; integral
values get a trailing `.0`.  Exact for the decimal values of this model. -/
def pfRepr (f : PyFloat) : String :=
  let c := pfCanon f.man f.exp
  if c.man = 0 then "0.0"
  else
    let sign := if c.man < 0 then "-" else ""
    let ds := Nat.toDigits 10 c.man.natAbs
    let n := ds.length
    let e : Int := (n : Int) - 1 - (c.exp : Int)
    if -4 ≤ e ∧ e < 16 then
      sign ++ (if c.exp = 0 then String.mk ds ++ ".0"
               else if c.exp < n then
                 String.mk (ds.take (n - c.exp)) ++ "." ++ String.mk (ds.drop (n - c.exp))
               else "0." ++ String.mk (List.replicate (c.exp - n) '0') ++ String.mk ds)
    else
      let ds2 := (ds.reverse.dropWhile (fun ch => ch == '0')).reverse
      let mant := match ds2 with
        | [] => "0"
        | d :: rest =>
          if rest.isEmpty then String.mk [d] else String.mk [d] ++ "." ++ String.mk rest
      let esign := if e < 0 then "-" else "+"
      let eabs := e.natAbs
      let estr := if eabs < 10 then "0" ++ toString eabs else toString eabs
      sign ++ mant ++ "e" ++ esign ++ estr

/-- `float(s)` restricted to the alphabet `{0-9, ., -}` that survives
`_to_float`'s filtering: an optional leading minus, then digits with at most
one decimal point and at least one digit.  Everything else fails.  The exact
decimal value is kept; see `pyFloatOverflows` for the one place where CPython
departs from it, by saturating to an infinity. -/
def parseUnsignedFloat (cs : List Char) : Option PyFloat :=
  let a := cs.takeWhile isDig
  let r1 := cs.dropWhile isDig
  match r1 with
  | [] => if a.isEmpty then Option.none else some (pfCanon (natOfDigits a) 0)
  | '.' :: r2 =>
    let b := r2.takeWhile isDig
    let r3 := r2.dropWhile isDig
    if r3.isEmpty && !(a.isEmpty && b.isEmpty) then
      some (pfCanon (natOfDigits (a ++ b)) b.length)
    else Option.none
  | _ => Option.none

/-- `float(s)` over the filtered alphabet, with the optional sign. -/
def parsePyFloat (cs : List Char) : Option PyFloat :=
  match cs with
  | '-' :: rest =>
    match parseUnsignedFloat rest with
    | some f => some (pfCanon (-f.man) f.exp)
    | Option.none => Option.none
  | _ => parseUnsignedFloat cs

/-! ## `str(x)` (Python's conversion to string) -/

/-- The comma-and-space separator used by Python container reprs. -/
def reprSep : String := ", "

mutual
/-- Python `repr` of a value (escape subtleties of string reprs are not
modelled; no claim depends on them). -/
def pyRepr : PyVal → String
  | .none => "None"
  | .bool b => if b then "True" else "False"
  | .int n => toString n
  | .float f => pfRepr f
  | .str s => "\x27" ++ s ++ "\x27"
  | .list xs => "[" ++ pyReprItems xs ++ "]"
  | .dict kvs => "\x7b" ++ pyReprEntries kvs ++ "\x7d"

/-- Comma-separated reprs of the elements of a list. -/
def pyReprItems : List PyVal → String
  | [] => ""
  | [x] => pyRepr x
  | x :: xs => pyRepr x ++ reprSep ++ pyReprItems xs

/-- Comma-separated reprs of the entries of a dict. -/
def pyReprEntries : List (String × PyVal) → String
  | [] => ""
  | [(k, v)] => "\x27" ++ k ++ "\x27: " ++ pyRepr v
  | (k, v) :: kvs => "\x27" ++ k ++ "\x27: " ++ pyRepr v ++ reprSep ++ pyReprEntries kvs
end

/-- Python `str(x)`: identity on strings, `repr` otherwise. -/
def pyStr : PyVal → String
  | .str s => s
  | v => pyRepr v

/-! ## Value Normalizers (`_to_float`, `_normalize_date`, `_mask_account`) -/

/-- `CURRENCY_PATTERN.sub("", s)` for `[₹$€£]\s?`: each currency glyph and at
most one immediately following whitespace character is removed, scanning left
to right. -/
def isCurrencyChar (c : Char) : Bool := c = '₹' || c = '$' || c = '€' || c = '£'

/-- One left-to-right pass of the currency-stripping substitution. -/
def stripCurrencyL : List Char → List Char
  | [] => []
  | c :: cs =>
    if isCurrencyChar c then
      match cs with
      | d :: ds => if isPySpace d then stripCurrencyL ds else stripCurrencyL (d :: ds)
      | [] => []
    else c :: stripCurrencyL cs

/-- The characters `NON_NUMERIC = [^0-9.\-]` keeps.  (In the source the
substitution's lambda returns `""` on both of its branches, so the `sub` is
exactly a filter.) -/
def keepNumeric (c : Char) : Bool := isDig c || c = '.' || c = '-'

/-- `_to_float`: `None` stays `None`; otherwise `str(x)` is stripped of
currency glyphs, commas and all other non-`[0-9.\-]` characters, and the
remainder is parsed with `float(...)`; a parse failure gives `None`.  The
parse keeps the exact decimal value, where CPython's `float(s)` rounds it to
the nearest IEEE-754 double and, past the double range, saturates to an
infinity and still returns it (it is not `None`, so such an entry is
retained); `pyFloatOverflows` marks exactly the results on which the program
holds `inf`/`-inf` where this model holds the exact finite decimal. -/
def _to_float (x : PyVal) : Option PyFloat :=
  match x with
  | .none => Option.none
  | v =>
    let s1 := stripCurrencyL (pyStr v).toList
    let s2 := s1.filter (fun c => c ≠ ',')
    let s3 := s2.filter keepNumeric
    parsePyFloat s3

/-- The overflow boundary of IEEE-754 binary64: `2^970 * (2^54 - 1)` is the
midpoint between the largest finite double `2^1024 - 2^971` and `2^1024`.
Correct rounding (round-to-nearest, ties to even) sends every real of at
least this magnitude to `2^1024`, i.e. to an infinity: the midpoint itself
ties between an odd significand (`2^53 - 1`) and the even `2^1024`. -/
def dblOverflowBound : Nat := 2 ^ 970 * (2 ^ 54 - 1)

/-- CPython's `float(s)` on a decimal string rounds the exact value `s`
denotes and returns `inf` (or `-inf`) exactly when its magnitude reaches
`dblOverflowBound`; below it the result is a finite double.  On a `PyFloat`
`f` — `man * 10^(-exp)`, the exact value of the parsed string — this holds
iff `dblOverflowBound * 10^exp ≤ |man|`.  The predicate is `true` precisely
on the parse results where the running program carries a non-finite float
while this embedding carries the exact decimal. -/
def pyFloatOverflows (f : PyFloat) : Bool :=
  decide (dblOverflowBound * 10 ^ f.exp ≤ f.man.natAbs)

/-- A match of `DATE_GUESS`: `ymd = true` for the year-first alternative
`(\d{4}) sep (\d{1,2}) sep (\d{1,2})` with groups `(g1,g2,g3) = (y,m,d)`;
`ymd = false` for the day-first alternative `(\d{1,2}) sep (\d{1,2}) sep
(\d{4})` with groups `(g1,g2,g3) = (d,m,y)`; `sep` is a dash or slash. -/
structure DGMatch where
  ymd : Bool
  g1 : List Char
  g2 : List Char
  g3 : List Char

/-- `\d{1,2}` followed by the rest of the pattern: candidate splits in
greedy (longest-first) order. -/
def d12cands (cs : List Char) : List (List Char × List Char) :=
  (match cs with
   | a :: b :: r => if isDig a && isDig b then [([a, b], r)] else []
   | _ => []) ++
  (match cs with
   | a :: r => if isDig a then [([a], r)] else []
   | _ => [])

/-- `\d{4}` (exactly four digits). -/
def d4m (cs : List Char) : Option (List Char × List Char) :=
  match cs with
  | a :: b :: c :: d :: r =>
    if isDig a && isDig b && isDig c && isDig d then some ([a, b, c, d], r) else Option.none
  | _ => Option.none

/-- The separator class: a dash or a slash. -/
def sepM (cs : List Char) : Option (Char × List Char) :=
  match cs with
  | c :: r => if c = '-' || c = '/' then some (c, r) else Option.none
  | [] => Option.none

/-- `DATE_GUESS` first alternative at a fixed position. -/
def dgAlt1 (cs : List Char) : Option DGMatch :=
  match d4m cs with
  | some (y, r1) =>
    match sepM r1 with
    | some (_, r2) =>
      (d12cands r2).findSome? fun mr =>
        match sepM mr.2 with
        | some (_, r4) =>
          (d12cands r4).findSome? fun dr => some ⟨true, y, mr.1, dr.1⟩
        | Option.none => Option.none
    | Option.none => Option.none
  | Option.none => Option.none

/-- `DATE_GUESS` second alternative at a fixed position. -/
def dgAlt2 (cs : List Char) : Option DGMatch :=
  (d12cands cs).findSome? fun dr =>
    match sepM dr.2 with
    | some (_, r2) =>
      (d12cands r2).findSome? fun mr =>
        match sepM mr.2 with
        | some (_, r4) =>
          match d4m r4 with
          | some (y, _) => some ⟨false, dr.1, mr.1, y⟩
          | Option.none => Option.none
        | Option.none => Option.none
    | Option.none => Option.none

/-- `DATE_GUESS.search`: leftmost position first; at each position the first
alternative is preferred, exactly like Python's `re`. -/
def dateGuessSearch : List Char → Option DGMatch
  | [] => Option.none
  | c :: cs =>
    match dgAlt1 (c :: cs) with
    | some m => some m
    | Option.none =>
      match dgAlt2 (c :: cs) with
      | some m => some m
      | Option.none => dateGuessSearch cs

/-- The `f"{int(y):04d}-{int(mm):02d}-{int(dd):02d}"` output of
`_normalize_date` (the regex bounds give `y ≤ 9999`, `mm, dd ≤ 99`, so the
pads print exactly 4/2/2 characters, as in Python). -/
def formatYmd (y mm dd : Nat) : String :=
  String.mk (pad4 y ++ '-' :: pad2 mm ++ '-' :: pad2 dd)

/-- `_normalize_date` on a (truthy) string: reformat the first `DATE_GUESS`
match, or return the string unchanged.  `int()` on the all-digit groups can
never fail, so the source's `except` branch is dead and is not modelled. -/
def normalizeDateStr (s : String) : String :=
  match dateGuessSearch s.toList with
  | Option.none => s
  | some g =>
    let y := natOfDigits (if g.ymd then g.g1 else g.g3)
    let mm := natOfDigits g.g2
    let dd := natOfDigits (if g.ymd then g.g3 else g.g1)
    formatYmd y mm dd

/-- `_normalize_date`: falsy input gives `None`; a truthy string is
normalized; a truthy non-string reaches `DATE_GUESS.search(s)` which raises
`TypeError: expected string or bytes-like object`. -/
def _normalize_date (v : PyVal) : Except String (Option String) :=
  if !pyTruthy v then .ok Option.none
  else
    match v with
    | .str s => .ok (some (normalizeDateStr s))
    | _ => .error "TypeError: expected string or bytes-like object"

/-- `_mask_account`: falsy values unchanged; otherwise keep only the digit
characters of `str(v)`; fewer than 4 digits gives the input back, else a
fixed-format mask around the last 4 digits.  Total (never raises). -/
def _mask_account (v : PyVal) : PyVal :=
  if !pyTruthy v then v
  else
    let digits := (pyStr v).toList.filter isDig
    if digits.length < 4 then v
    else .str ("XXXX-XXXX-XXXX-" ++ String.mk (digits.drop (digits.length - 4)))

example : _to_float (.str "-2,000.00") = some ⟨-2000, 0⟩ := rfl
example : _to_float (.float ⟨-2000, 0⟩) = some ⟨-2000, 0⟩ := rfl
example : _to_float (.float ⟨1, 5⟩) = Option.none := rfl
example : _to_float (.int 0) = some ⟨0, 0⟩ := rfl
example : _to_float .none = Option.none := rfl
example : _to_float (.str "abc") = Option.none := rfl
example : pfRepr ⟨1, 5⟩ = "1e-05" := rfl
example : pfRepr ⟨25075, 2⟩ = "250.75" := rfl
example : pfRepr ⟨1, 4⟩ = "0.0001" := rfl
example : normalizeDateStr "2025-10-05" = "2025-10-05" := rfl
example : normalizeDateStr "hello" = "hello" := rfl
example : normalizeDateStr "1-2-0003" = "0003-02-01" := rfl
example : _mask_account (.str "1234567890123456") = .str "XXXX-XXXX-XXXX-3456" := rfl

/-! ## The Reconciliation Engine (`_coerce_extracted`, `_post_process_extracted`) -/

/-- The `Quality` dataclass.  `notes` only collects free-form diagnostics and
is not touched by the functions modelled here. -/
structure Quality where
  ocr_confidence : Option PyFloat := Option.none
  page_rotation_warnings : Bool := false
  missing_sections : List String := []
  duplicate_entries : Bool := false
  gemini_used : Bool := false
  gemini_error : Option String := Option.none
  notes : List String := []

/-- The freshly-constructed `Quality()` object. -/
def defaultQuality : Quality := {}

/-- `_coerce_extracted`: unwrap a `fields` wrapper, then reduce a dict (two
naming conventions per section), a non-empty list whose first element is a
dict, or anything else, to the canonical three-key shape.  Total. -/
def _coerce_extracted (data : PyVal) : PyVal :=
  let data' := match data with
    | .dict kvs =>
      match dictLookup kvs "fields" with
      | .dict fkvs => PyVal.dict fkvs
      | _ => PyVal.dict kvs
    | d => d
  match data' with
  | .dict kvs =>
    .dict [("Account Info", pyOr (dictLookup kvs "Account Info")
             (pyOr (dictLookup kvs "account_info") (.dict []))),
           ("Summary Values", pyOr (dictLookup kvs "Summary Values")
             (pyOr (dictLookup kvs "summary_values") (.dict []))),
           ("Transactions", pyOr (dictLookup kvs "Transactions")
             (pyOr (dictLookup kvs "transactions") (.list [])))]
  | .list (x :: xs) =>
    match x with
    | .dict _ =>
      .dict [("Account Info", .dict []), ("Summary Values", .dict []),
             ("Transactions", .list (x :: xs))]
    | _ =>
      .dict [("Account Info", .dict []), ("Summary Values", .dict []),
             ("Transactions", .list [])]
  | _ =>
    .dict [("Account Info", .dict []), ("Summary Values", .dict []),
           ("Transactions", .list [])]

/-- One normalized, validated transaction as retained by the engine.
`amount` is a `PyFloat`, hence a finite number by construction. -/
structure Txn where
  date : String
  desc : String
  amount : PyFloat
  balance : Option PyFloat
  category : PyVal

/-- The entry list of the dict the engine emits for a retained `Txn`. -/
def txnEntries (t : Txn) : List (String × PyVal) :=
  [("date", .str t.date), ("description", .str t.desc),
   ("amount", .float t.amount),
   ("balance", match t.balance with | some b => .float b | Option.none => .none),
   ("category", t.category)]

/-- The transaction dict the engine emits for a retained `Txn`. -/
def Txn.toPyVal (t : Txn) : PyVal := .dict (txnEntries t)

/-- The dedup key `(date, desc.lower(), float(amt))`. -/
structure TxnKey where
  date : String
  descLower : String
  amt : PyFloat

/-- The key of a retained transaction. -/
def txnKey (t : Txn) : TxnKey := ⟨t.date, pyLower t.desc, t.amount⟩

/-- Python `==` on keys: string equality on the two string components and
numeric float equality on the amount. -/
def keyEqv (a b : TxnKey) : Bool :=
  a.date == b.date && a.descLower == b.descLower && pfEqv a.amt b.amt

/-- The transaction loop of `_post_process_extracted`: skip non-dicts;
normalize date / description / amount / balance; keep an entry only if the
date and description are truthy and the amount parsed; drop a later entry
whose key was already seen, recording the duplicate.  Raises exactly when
`_normalize_date` does (truthy non-string date value). -/
def collectTxns : List PyVal → List TxnKey → List Txn → Bool →
    Except String (List Txn × Bool)
  | [], _, acc, dup => .ok (acc, dup)
  | t :: rest, seen, acc, dup =>
    match t with
    | .dict kvs => do
      let dval := pyOr (dictLookup kvs "date")
        (pyOr (dictLookup kvs "Date") (dictLookup kvs "date_str"))
      let date ← _normalize_date dval
      let desc := pyStripStr (pyStr (pyOr (dictLookup kvs "description")
        (pyOr (dictLookup kvs "Description") (.str ""))))
      let amt := _to_float (pyOr (dictLookup kvs "amount") (dictLookup kvs "Amount"))
      let bal := _to_float (pyOr (dictLookup kvs "balance") (dictLookup kvs "Balance"))
      match date, amt with
      | some d, some a =>
        if d = "" ∨ desc = "" then collectTxns rest seen acc dup
        else
          let k : TxnKey := ⟨d, pyLower desc, a⟩
          if seen.any (keyEqv k) then collectTxns rest seen acc true
          else
            let t2 : Txn := ⟨d, desc, a, bal, dictLookup kvs "category"⟩
            collectTxns rest (k :: seen) (acc ++ [t2]) dup
      | _, _ => collectTxns rest seen acc dup
    | _ => collectTxns rest seen acc dup

/-- Lexicographic string order by Unicode code point (Python's `<=` on the
sort keys).  Total and transitive, so `txns.sort`'s comparison never fails
and the source's `except: pass` branch is unreachable in the model. -/
def clLe : List Char → List Char → Bool
  | [], _ => true
  | _ :: _, [] => false
  | a :: xs, b :: ys =>
    if a.toNat < b.toNat then true
    else if b.toNat < a.toNat then false
    else clLe xs ys

/-- String comparison for the date sort key. -/
def strLeB (a b : String) : Bool := clLe a.toList b.toList

/-- Stable insertion of a (later) element after every earlier element with a
smaller-or-equal key. -/
def insertTxn (t : Txn) : List Txn → List Txn
  | [] => [t]
  | u :: us => if strLeB u.date t.date then u :: insertTxn t us else t :: u :: us

/-- `txns.sort(key=lambda x: x["date"])`: a stable ascending sort by the date
string.  Python's Timsort and this insertion sort agree on every list because
both are stable with respect to the same total preorder. -/
def sortTxns (l : List Txn) : List Txn := l.foldl (fun acc t => insertTxn t acc) []

/-- The `Transactions` value of the coerced payload, i.e.
`extracted.get("Transactions") or []` in `_post_process_extracted`. -/
def rawTxnList (ext : PyVal) : PyVal :=
  pyOr (pyGetD (_coerce_extracted ext) "Transactions") (.list [])

/-- The dedup-then-sort phase of `_post_process_extracted` (`raw_txns or []`
iterated, the loop, then the sort). -/
def reconcile (ext : PyVal) : Except String (List Txn × Bool) := do
  let elems ← pyIter (pyOr (rawTxnList ext) (.list []))
  let (ts0, dup) ← collectTxns elems [] [] false
  pure (sortTxns ts0, dup)

/-- `acct.get(k1) or acct.get(k2)` (raises `AttributeError` on a truthy
non-dict section, exactly like the source). -/
def acctField (acct : PyVal) (k1 k2 : String) : Except String PyVal := do
  let a ← pyGetAttr acct k1
  let b ← pyGetAttr acct k2
  pure (pyOr a b)

/-- `_to_float(summary.get(k1) or summary.get(k2))`. -/
def sumField (summary : PyVal) (k1 k2 : String) : Except String (Option PyFloat) := do
  let a ← pyGetAttr summary k1
  let b ← pyGetAttr summary k2
  pure (_to_float (pyOr a b))

/-- `None ↦ None`, `some x ↦ float x` when storing an optional number. -/
def optFloatV : Option PyFloat → PyVal
  | some f => .float f
  | Option.none => .none

/-- The `fields` dict literal of `_post_process_extracted`. -/
def mkFields (bank holder maskedNum month atype : PyVal)
    (ob cb tc td adb : Option PyFloat) (txns : List Txn) : PyVal :=
  .dict [("Account Info", .dict [("Bank name", bank), ("Account holder name", holder),
           ("Account number", maskedNum), ("Statement month", month),
           ("Account type", atype)]),
         ("Summary Values", .dict [("Opening balance", optFloatV ob),
           ("Closing balance", optFloatV cb), ("Total credits", optFloatV tc),
           ("Total debits", optFloatV td), ("Average daily balance", optFloatV adb)]),
         ("Transactions", .list (txns.map Txn.toPyVal))]

/-- `missing_sections`: `"transactions"` iff the final list is empty, then
`"opening_balance"` / `"closing_balance"` iff the respective value is `None`. -/
def missingSections (txns : List Txn) (ob cb : Option PyFloat) : List String :=
  (if txns.isEmpty then ["transactions"] else []) ++
  (if ob.isNone then ["opening_balance"] else []) ++
  (if cb.isNone then ["closing_balance"] else [])

/-- `_post_process_extracted`: coerce, reconcile the transactions, normalize
the account and summary sections (masking the account number), and return
the canonical `fields` record together with the updated quality flags.
`.error` marks the inputs on which the Python function raises. -/
def _post_process_extracted (ext : PyVal) (quality : Quality) :
    Except String (PyVal × Quality) := do
  let extracted := _coerce_extracted ext
  let acct := pyOr (pyGetD extracted "Account Info") (.dict [])
  let summary := pyOr (pyGetD extracted "Summary Values") (.dict [])
  let (txns, dup) ← reconcile ext
  let bank ← acctField acct "Bank name" "bank_name"
  let holder ← acctField acct "Account holder name" "account_holder_name"
  let acctNumRaw ← acctField acct "Account number" "account_number"
  let month ← acctField acct "Statement month" "statement_month"
  let atype ← acctField acct "Account type" "account_type"
  let ob ← sumField summary "Opening balance" "opening_balance"
  let cb ← sumField summary "Closing balance" "closing_balance"
  let tc ← sumField summary "Total credits" "total_credits"
  let td ← sumField summary "Total debits" "total_debits"
  let adb ← sumField summary "Average daily balance" "average_daily_balance"
  let fields := mkFields bank holder (_mask_account acctNumRaw) month atype
    ob cb tc td adb txns
  pure (fields, { quality with duplicate_entries := dup,
                               missing_sections := missingSections txns ob cb })

/-! ## The Heuristic Text Extractor (`TXN_LINE_RE`, `_local_parse_text_for_txns`) -/

/-- `\d{2,4}` followed by the end of the date group: candidate takes in
greedy order (4, then 3, then 2 digits). -/
def d24cands (cs : List Char) : List (List Char × List Char) :=
  (match cs with
   | a :: b :: c :: d :: r =>
     if isDig a && isDig b && isDig c && isDig d then [([a, b, c, d], r)] else []
   | _ => []) ++
  (match cs with
   | a :: b :: c :: r => if isDig a && isDig b && isDig c then [([a, b, c], r)] else []
   | _ => []) ++
  (match cs with
   | a :: b :: r => if isDig a && isDig b then [([a, b], r)] else []
   | _ => [])

/-- The separator as a one-candidate list (for candidate composition). -/
def sepCands (cs : List Char) : List (List Char × List Char) :=
  match cs with
  | c :: r => if c = '-' || c = '/' then [([c], r)] else []
  | [] => []

/-- The first `TXN_LINE_RE` date alternative `\d{1,2} sep \d{1,2} sep
\d{2,4}` : every (date-text, rest) split in backtracking preference order. -/
def txnDateAlt1 (cs : List Char) : List (List Char × List Char) :=
  (d12cands cs).flatMap fun ar =>
    (sepCands ar.2).flatMap fun s1 =>
      (d12cands s1.2).flatMap fun br =>
        (sepCands br.2).flatMap fun s2 =>
          (d24cands s2.2).map fun cr => (ar.1 ++ s1.1 ++ br.1 ++ s2.1 ++ cr.1, cr.2)

/-- The second `TXN_LINE_RE` date alternative `\d{4} sep \d{1,2} sep
\d{1,2}`. -/
def txnDateAlt2 (cs : List Char) : List (List Char × List Char) :=
  match d4m cs with
  | some (y, r1) =>
    (sepCands r1).flatMap fun s1 =>
      (d12cands s1.2).flatMap fun br =>
        (sepCands br.2).flatMap fun s2 =>
          (d12cands s2.2).map fun cr => (y ++ s1.1 ++ br.1 ++ s2.1 ++ cr.1, cr.2)
  | Option.none => []

/-- All date-group candidates of `TXN_LINE_RE` at a fixed position, first
alternative preferred. -/
def txnDateCands (cs : List Char) : List (List Char × List Char) :=
  txnDateAlt1 cs ++ txnDateAlt2 cs

/-- `[\d,]*` (greedy) then `\.?\d{0,2}` (both greedy; nothing follows them in
the pattern, so no further backtracking can occur). -/
def amtTail (cs : List Char) : List Char × List Char :=
  let run := cs.takeWhile (fun c => isDig c || c = ',')
  let r1 := cs.dropWhile (fun c => isDig c || c = ',')
  match r1 with
  | '.' :: r2 =>
    match r2 with
    | a :: b :: r3 =>
      if isDig a && isDig b then (run ++ ['.', a, b], r3)
      else if isDig a then (run ++ ['.', a], b :: r3)
      else (run ++ ['.'], a :: b :: r3)
    | [a] => if isDig a then (run ++ ['.', a], []) else (run ++ ['.'], [a])
    | [] => (run ++ ['.'], [])
  | _ => (run, r1)

/-- The amount group `[-]?\d[\d,]*\.?\d{0,2}` at a fixed position. -/
def amtMatch (cs : List Char) : Option (List Char × List Char) :=
  match cs with
  | '-' :: d :: rest =>
    if isDig d then
      let tr := amtTail rest
      some ('-' :: d :: tr.1, tr.2)
    else Option.none
  | d :: rest =>
    if isDig d then
      let tr := amtTail rest
      some (d :: tr.1, tr.2)
    else Option.none
  | [] => Option.none

/-- The gap `.{1,120}` (any character but a newline) followed by the amount
group: greedy, so the longest feasible gap whose remainder starts with an
amount wins.  Returns `(whole match, amount group, rest after the match)`. -/
def tryGapAmt (dstr rest : List Char) : Option (List Char × List Char × List Char) :=
  let g := min 120 ((rest.takeWhile (fun c => c ≠ '\n')).length)
  ((List.range g).reverse.map (· + 1)).findSome? fun gapLen =>
    match amtMatch (rest.drop gapLen) with
    | some (a, r) => some (dstr ++ rest.take gapLen ++ a, a, r)
    | Option.none => Option.none

/-- A full `TXN_LINE_RE` match attempt at a fixed position:
`(span, date group, amount group, rest after the match)`. -/
def tryTxnAt (cs : List Char) : Option (List Char × List Char × List Char × List Char) :=
  (txnDateCands cs).findSome? fun dr =>
    match tryGapAmt dr.1 dr.2 with
    | some (span, a, r) => some (span, dr.1, a, r)
    | Option.none => Option.none

/-- `TXN_LINE_RE.finditer`: leftmost match first, continuing after each
match (non-overlapping).  Every match spans at least one character, so fuel
`length + 1` never runs out. -/
def finditerTxn : Nat → List Char → List (List Char × List Char × List Char)
  | 0, _ => []
  | _ + 1, [] => []
  | fuel + 1, c :: cs =>
    match tryTxnAt (c :: cs) with
    | some (span, d, a, rest) => (span, d, a) :: finditerTxn fuel rest
    | Option.none => finditerTxn fuel cs

/-- `_local_parse_text_for_txns`: for each regex match normalize the date
group and the amount group; emit a candidate dict (whole trimmed span as
description) only when the date is truthy and the amount parsed. -/
def _local_parse_text_for_txns (text : String) : List PyVal :=
  (finditerTxn (text.length + 1) text.toList).filterMap fun m =>
    let date := normalizeDateStr (String.mk m.2.1)
    match _to_float (.str (String.mk m.2.2)) with
    | some a =>
      if date = "" then Option.none
      else some (.dict [("date", .str date),
        ("description", .str (pyStripStr (String.mk m.1))),
        ("amount", .float a), ("balance", PyVal.none), ("category", PyVal.none)])
    | Option.none => Option.none

/-! ## The Insight Summarizer local fallback (`_insights_local_fallback`) -/

/-- Python's `x is None`. -/
def isNoneV : PyVal → Bool
  | .none => true
  | _ => false

/-- `v.get(k, default)` on an arbitrary value (`AttributeError` on
non-dicts).  The default applies only to a missing key, as in Python. -/
def pyGetAttrD (v : PyVal) (k : String) (d : PyVal) : Except String PyVal :=
  match v with
  | .dict kvs =>
    .ok (match kvs.find? (fun p => p.1 == k) with
         | some p => p.2
         | Option.none => d)
  | _ => .error "AttributeError: object has no attribute get"

/-- A numeric comparison operand (`credits > debits`): numbers compare
numerically, anything else raises.  (Python also orders two strings; the
engine's summary values are never strings, so that case is not modelled.) -/
def pyNumVal (v : PyVal) : Except String PyFloat :=
  match v with
  | .int n => .ok ⟨n, 0⟩
  | .float f => .ok f
  | .bool b => .ok ⟨if b then 1 else 0, 0⟩
  | _ => .error "TypeError: comparison not supported"

/-- `float(x)`: numbers convert exactly; strings are parsed (the full Python
literal grammar is cut down to the decimal fragment, which covers every
value the engine can store); everything else raises. -/
def pyFloatFn (v : PyVal) : Except String PyFloat :=
  match v with
  | .int n => .ok ⟨n, 0⟩
  | .float f => .ok f
  | .bool b => .ok ⟨if b then 1 else 0, 0⟩
  | .str s =>
    match parsePyFloat (pyStripL s.toList) with
    | some f => .ok f
    | Option.none => .error "ValueError: could not convert string to float"
  | _ => .error "TypeError: float() argument"

/-- Thousands grouping for `:,.2f`, working over the reversed digit list. -/
def groupAux : List Char → Nat → List Char
  | [], _ => []
  | c :: rest, n =>
    c :: (if n % 3 = 0 && !rest.isEmpty then ',' :: groupAux rest (n + 1)
          else groupAux rest (n + 1))

/-- Python's `f"{x:,.2f}"`: round to two decimals, group the integer part by
thousands, always print two decimals. -/
def fmtMoney2 (f : PyFloat) : String :=
  let r := pfRound2 f
  let m2 := r.man.natAbs * 10 ^ (2 - r.exp)
  let ip := m2 / 100
  let fr := m2 % 100
  (if r.man < 0 then "-" else "") ++
    String.mk ((groupAux (Nat.toDigits 10 ip).reverse 1).reverse) ++
    "." ++ String.mk (pad2 fr)

/-- The average-balance observation. -/
def avgTipStr (f : PyFloat) : String := "Approx average balance ₹" ++ fmtMoney2 f ++ "."

/-- The ATM-count observation. -/
def atmTipStr (n : Nat) : String := "ATM withdrawals: " ++ toString n ++ "×."

/-- The UPI-count observation. -/
def upiTipStr (n : Nat) : String := "UPI transactions: " ++ toString n ++ "×."

/-- The net-positive-inflow observation. -/
def netTipStr : String := "Net positive inflow; consider saving/investing surplus."

/-- The placeholder emitted when no rule fired. -/
def noTipStr : String := "No strong insights from parsed data."

/-- `sum(1 for t in txns if needle in t["description"].lower())`: raises on a
non-dict entry, a missing `description` key, or a non-string description. -/
def countDescContains (txns : List PyVal) (needle : String) : Except String Nat :=
  match txns with
  | [] => .ok 0
  | t :: rest =>
    match t with
    | .dict kvs =>
      match kvs.find? (fun p => p.1 == "description") with
      | some p =>
        match p.2 with
        | .str s => do
          let n ← countDescContains rest needle
          pure ((if containsSub (pyLower s).toList needle.toList then 1 else 0) + n)
        | _ => .error "AttributeError: lower"
      | Option.none => .error "KeyError: description"
    | _ => .error "TypeError: not subscriptable"

/-- `_insights_local_fallback`: the rule-ordered local observations.  The
`[:8]` truncation lives in the caller; this function itself can produce at
most four rule observations or the single placeholder. -/
def _insights_local_fallback (fields : PyVal) : Except String (List String) := do
  let sv ← pyGetAttrD fields "Summary Values" (.dict [])
  let txnsV ← pyGetAttrD fields "Transactions" (.list [])
  let opening ← pyGetAttr sv "Opening balance"
  let closing ← pyGetAttr sv "Closing balance"
  let creditsV ← pyGetAttr sv "Total credits"
  let debitsV ← pyGetAttr sv "Total debits"
  let credits := pyOr creditsV (.float ⟨0, 0⟩)
  let debits := pyOr debitsV (.float ⟨0, 0⟩)
  let tips1 ←
    if isNoneV opening || isNoneV closing then pure ([] : List String)
    else do
      let o ← pyFloatFn opening
      let c ← pyFloatFn closing
      pure [avgTipStr (pfRound2 (pfHalf (pfAdd o c)))]
  let telems ← pyIter txnsV
  let atmCnt ← countDescContains telems "atm"
  let tips2 := tips1 ++ (if atmCnt ≠ 0 then [atmTipStr atmCnt] else [])
  let upiCnt ← countDescContains telems "upi"
  let tips3 := tips2 ++ (if upiCnt ≠ 0 then [upiTipStr upiCnt] else [])
  let tips4 ←
    if pyTruthy credits && pyTruthy debits then do
      let cn ← pyNumVal credits
      let dn ← pyNumVal debits
      pure (tips3 ++ (if pfLt dn cn then [netTipStr] else []))
    else pure tips3
  pure (if tips4.isEmpty then [noTipStr] else tips4)

/-! ## Mock output and the head of `process_bank_statement` -/

/-- The fixed record returned in test/mock mode (`_mock_output`). -/
def _mock_output : PyVal :=
  .dict [("fields", .dict [
    ("Account Info", .dict [("Bank name", .str "HDFC Bank"),
      ("Account holder name", .str "Test User"),
      ("Account number", .str "XXXX-XXXX-XXXX-7890"),
      ("Statement month", .str "October 2025"),
      ("Account type", .str "Savings")]),
    ("Summary Values", .dict [("Opening balance", .float ⟨15000, 0⟩),
      ("Closing balance", .float ⟨17500, 0⟩),
      ("Total credits", .float ⟨12000, 0⟩),
      ("Total debits", .float ⟨9500, 0⟩),
      ("Average daily balance", .float ⟨16200, 0⟩)]),
    ("Transactions", .list [
      .dict [("date", .str "2025-10-01"), ("description", .str "Salary Credit"),
        ("amount", .float ⟨25000, 0⟩), ("balance", .float ⟨40000, 0⟩),
        ("category", .str "Salary")],
      .dict [("date", .str "2025-10-05"), ("description", .str "ATM WITHDRAWAL"),
        ("amount", .float ⟨-2000, 0⟩), ("balance", .float ⟨38000, 0⟩),
        ("category", .str "ATM Cash")]])]),
   ("insights", .list [.str "Account maintained > ₹10,000 average balance during October."]),
   ("quality", .dict [])]

/-- The head of `process_bank_statement`: the `os.path.exists` check is
abstracted into the `path_exists` argument and raises `FileNotFoundError`
when false; only then is the test-mode branch taken.  The remainder of the
function (producers, OCR, file reads) is external I/O and is represented by
the `Option.none` result meaning "the run continues past the modelled head". -/
def process_bank_statement (path_exists : Bool) (test_mode : Bool) :
    Except String (Option PyVal) :=
  if !path_exists then .error "FileNotFoundError"
  else if test_mode then .ok (some _mock_output)
  else .ok Option.none

/-- The field names of the `Quality` dataclass, for the claim that the mock
record's `quality` value carries none of them. -/
def qualityFieldNames : List String :=
  ["ocr_confidence", "page_rotation_warnings", "missing_sections",
   "duplicate_entries", "gemini_used", "gemini_error", "notes"]

/-! ## Basic lemmas: digits, pads, float equality, stripping, string order -/

lemma isDig_digitChar (n : Nat) : isDig (digitChar n) = true := by
  unfold digitChar
  have h : n % 10 < 10 := Nat.mod_lt _ (by omega)
  revert h
  generalize n % 10 = k
  intro h
  interval_cases k <;> rfl

lemma charToDigit_digitChar (n : Nat) : charToDigit (digitChar n) = n % 10 := by
  unfold digitChar
  have h : n % 10 < 10 := Nat.mod_lt _ (by omega)
  revert h
  generalize n % 10 = k
  intro h
  interval_cases k <;> rfl

lemma charToDigit_le_of_isDig {c : Char} (h : isDig c = true) : charToDigit c ≤ 9 := by
  simp only [isDig, Bool.and_eq_true, decide_eq_true_eq] at h
  unfold charToDigit
  omega

lemma natOfDigits_pad2 {n : Nat} (h : n < 100) : natOfDigits (pad2 n) = n := by
  simp only [natOfDigits, pad2, List.foldl, charToDigit_digitChar]
  omega

lemma natOfDigits_pad4 {n : Nat} (h : n < 10000) : natOfDigits (pad4 n) = n := by
  simp only [natOfDigits, pad4, List.foldl, charToDigit_digitChar]
  omega

lemma natOfDigits_lt_aux (ds : List Char) :
    ∀ a : Nat, (∀ c ∈ ds, isDig c = true) →
      ds.foldl (fun x c => x * 10 + charToDigit c) a < (a + 1) * 10 ^ ds.length := by
  induction ds with
  | nil => intro a _; simp
  | cons c cs ih =>
    intro a h
    have hc : charToDigit c ≤ 9 := charToDigit_le_of_isDig (h c (by simp))
    have h2 := ih (a * 10 + charToDigit c) (fun x hx => h x (by simp [hx]))
    simp only [List.foldl_cons, List.length_cons]
    calc cs.foldl (fun x c => x * 10 + charToDigit c) (a * 10 + charToDigit c)
        < (a * 10 + charToDigit c + 1) * 10 ^ cs.length := h2
      _ ≤ (a + 1) * 10 ^ (cs.length + 1) := by
          have : a * 10 + charToDigit c + 1 ≤ (a + 1) * 10 := by omega
          calc (a * 10 + charToDigit c + 1) * 10 ^ cs.length
              ≤ ((a + 1) * 10) * 10 ^ cs.length := Nat.mul_le_mul_right _ this
            _ = (a + 1) * 10 ^ (cs.length + 1) := by ring

lemma natOfDigits_lt (ds : List Char) (h : ∀ c ∈ ds, isDig c = true) :
    natOfDigits ds < 10 ^ ds.length := by
  simpa using natOfDigits_lt_aux ds 0 h

lemma pfEqv_refl (a : PyFloat) : pfEqv a a = true := by simp [pfEqv]

lemma pfEqv_symm {a b : PyFloat} (h : pfEqv a b = true) : pfEqv b a = true := by
  simp only [pfEqv, beq_iff_eq] at *
  omega

lemma pfEqv_trans {a b c : PyFloat} (h1 : pfEqv a b = true) (h2 : pfEqv b c = true) :
    pfEqv a c = true := by
  simp only [pfEqv, beq_iff_eq] at *
  have hp : ((10 : ℤ) ^ b.exp) ≠ 0 := pow_ne_zero _ (by norm_num)
  apply mul_left_cancel₀ hp
  calc (10 : ℤ) ^ b.exp * (a.man * 10 ^ c.exp)
      = (a.man * 10 ^ b.exp) * 10 ^ c.exp := by ring
    _ = (b.man * 10 ^ a.exp) * 10 ^ c.exp := by rw [h1]
    _ = (b.man * 10 ^ c.exp) * 10 ^ a.exp := by ring
    _ = (c.man * 10 ^ b.exp) * 10 ^ a.exp := by rw [h2]
    _ = 10 ^ b.exp * (c.man * 10 ^ a.exp) := by ring

lemma keyEqv_refl (a : TxnKey) : keyEqv a a = true := by
  simp [keyEqv, pfEqv_refl]

lemma keyEqv_symm {a b : TxnKey} (h : keyEqv a b = true) : keyEqv b a = true := by
  simp only [keyEqv, Bool.and_eq_true, beq_iff_eq] at *
  exact ⟨⟨h.1.1.symm, h.1.2.symm⟩, pfEqv_symm h.2⟩

lemma keyEqv_trans {a b c : TxnKey} (h1 : keyEqv a b = true) (h2 : keyEqv b c = true) :
    keyEqv a c = true := by
  simp only [keyEqv, Bool.and_eq_true, beq_iff_eq] at *
  exact ⟨⟨h1.1.1.trans h2.1.1, h1.1.2.trans h2.1.2⟩, pfEqv_trans h1.2 h2.2⟩

lemma dropWhile_head_false {α : Type} {p : α → Bool} :
    ∀ {l : List α} {c : α} {r : List α}, List.dropWhile p l = c :: r → p c = false := by
  intro l
  induction l with
  | nil => intro c r h; simp [List.dropWhile] at h
  | cons a t ih =>
    intro c r h
    by_cases hp : p a = true
    · rw [List.dropWhile_cons_of_pos hp] at h
      exact ih h
    · rw [List.dropWhile_cons_of_neg hp] at h
      cases h
      simpa using hp

lemma dropWhile_idem {α : Type} {p : α → Bool} (l : List α) :
    List.dropWhile p (List.dropWhile p l) = List.dropWhile p l := by
  cases h : List.dropWhile p l with
  | nil => rfl
  | cons c r =>
    have hc : ¬ (p c = true) := by simp [dropWhile_head_false h]
    rw [List.dropWhile_cons_of_neg hc]

lemma pyStripL_idem (l : List Char) : pyStripL (pyStripL l) = pyStripL l := by
  unfold pyStripL
  have hC := dropWhile_idem (p := isPySpace) ((List.dropWhile isPySpace l).reverse)
  have hstep1 : List.dropWhile isPySpace
      ((List.dropWhile isPySpace (List.dropWhile isPySpace l).reverse).reverse) =
      (List.dropWhile isPySpace (List.dropWhile isPySpace l).reverse).reverse := by
    cases hBc : (List.dropWhile isPySpace (List.dropWhile isPySpace l).reverse).reverse with
    | nil => rfl
    | cons c r =>
      have hsplit := (List.takeWhile_append_dropWhile
        (p := isPySpace) (l := (List.dropWhile isPySpace l).reverse)).symm
      have hA : List.dropWhile isPySpace l =
          (List.dropWhile isPySpace (List.dropWhile isPySpace l).reverse).reverse ++
          (List.takeWhile isPySpace (List.dropWhile isPySpace l).reverse).reverse := by
        calc List.dropWhile isPySpace l
            = (List.dropWhile isPySpace l).reverse.reverse := by rw [List.reverse_reverse]
          _ = (List.takeWhile isPySpace (List.dropWhile isPySpace l).reverse ++
                List.dropWhile isPySpace (List.dropWhile isPySpace l).reverse).reverse := by
              rw [← hsplit]
          _ = _ := by rw [List.reverse_append]
      rw [hBc] at hA
      have hc : isPySpace c = false := dropWhile_head_false (p := isPySpace) hA
      rw [List.dropWhile_cons_of_neg (by simp [hc])]
  rw [hstep1, List.reverse_reverse, hC]

lemma pyStripStr_idem (s : String) : pyStripStr (pyStripStr s) = pyStripStr s := by
  unfold pyStripStr
  have : (String.mk (pyStripL s.toList)).toList = pyStripL s.toList := rfl
  rw [this, pyStripL_idem]

/-! ## String order: totality and transitivity of the sort comparison -/

lemma clLe_total : ∀ a b : List Char, clLe a b = true ∨ clLe b a = true := by
  intro a
  induction a with
  | nil => intro b; left; rfl
  | cons x xs ih =>
    intro b
    cases b with
    | nil => right; rfl
    | cons y ys =>
      simp only [clLe]
      rcases Nat.lt_trichotomy x.toNat y.toNat with h | h | h
      · left; simp [h]
      · have h1 : ¬ x.toNat < y.toNat := by omega
        have h2 : ¬ y.toNat < x.toNat := by omega
        rcases ih ys with hl | hr
        · left; simp [h1, h2, hl]
        · right; simp [h1, h2, hr]
      · right; simp [h]

lemma clLe_trans : ∀ a b c : List Char, clLe a b = true → clLe b c = true → clLe a c = true := by
  intro a
  induction a with
  | nil => intro b c _ _; rfl
  | cons x xs ih =>
    intro b c hab hbc
    cases b with
    | nil => simp [clLe] at hab
    | cons y ys =>
      cases c with
      | nil => simp [clLe] at hbc
      | cons z zs =>
        simp only [clLe] at *
        by_cases hxy : x.toNat < y.toNat
        · by_cases hyz : y.toNat < z.toNat
          · simp [show x.toNat < z.toNat by omega]
          · by_cases hzy : z.toNat < y.toNat
            · simp [hyz, hzy] at hbc
            · have : y.toNat = z.toNat := by omega
              simp [show x.toNat < z.toNat by omega]
        · by_cases hyx : y.toNat < x.toNat
          · simp [hxy, hyx] at hab
          · have hxe : x.toNat = y.toNat := by omega
            simp only [hxy, hyx, if_false, if_true, Bool.false_eq_true] at hab
            by_cases hyz : y.toNat < z.toNat
            · simp [show x.toNat < z.toNat by omega]
            · by_cases hzy : z.toNat < y.toNat
              · simp [hyz, hzy] at hbc
              · have h1 : ¬ x.toNat < z.toNat := by omega
                have h2 : ¬ z.toNat < x.toNat := by omega
                simp only [hyz, hzy, if_false, if_true, Bool.false_eq_true] at hbc
                simp [h1, h2, ih ys zs hab hbc]

lemma strLeB_total (a b : String) : strLeB a b = true ∨ strLeB b a = true :=
  clLe_total a.toList b.toList

lemma strLeB_trans {a b c : String} (h1 : strLeB a b = true) (h2 : strLeB b c = true) :
    strLeB a c = true :=
  clLe_trans a.toList b.toList c.toList h1 h2

lemma clLe_refl : ∀ a : List Char, clLe a a = true := by
  intro a
  induction a with
  | nil => rfl
  | cons x xs ih => simp [clLe, ih]

lemma strLeB_refl (a : String) : strLeB a a = true := clLe_refl a.toList

/-- The sort order used by the engine (non-decreasing date strings). -/
def txnLe (a b : Txn) : Prop := strLeB a.date b.date = true

lemma txnLe_total (a b : Txn) : txnLe a b ∨ txnLe b a := strLeB_total a.date b.date

lemma txnLe_trans {a b c : Txn} (h1 : txnLe a b) (h2 : txnLe b c) : txnLe a c :=
  strLeB_trans h1 h2

lemma mem_insertTxn {t x : Txn} : ∀ {l : List Txn}, x ∈ insertTxn t l ↔ x = t ∨ x ∈ l := by
  intro l
  induction l with
  | nil => simp [insertTxn]
  | cons u us ih =>
    by_cases h : strLeB u.date t.date = true
    · simp only [insertTxn, if_pos h, List.mem_cons, ih]
      tauto
    · simp only [insertTxn, if_neg h, List.mem_cons]

lemma insertTxn_pairwise {t : Txn} :
    ∀ {l : List Txn}, l.Pairwise txnLe → (insertTxn t l).Pairwise txnLe := by
  intro l
  induction l with
  | nil => intro _; simp [insertTxn, List.pairwise_cons]
  | cons u us ih =>
    intro hp
    rcases List.pairwise_cons.mp hp with ⟨hu, hus⟩
    by_cases h : strLeB u.date t.date = true
    · rw [insertTxn, if_pos h]
      refine List.pairwise_cons.mpr ⟨?_, ih hus⟩
      intro x hx
      rcases mem_insertTxn.mp hx with rfl | hx2
      · exact h
      · exact hu x hx2
    · rw [insertTxn, if_neg h]
      have hut : txnLe t u := by
        rcases txnLe_total u t with h1 | h1
        · exact absurd h1 h
        · exact h1
      refine List.pairwise_cons.mpr ⟨?_, hp⟩
      intro x hx
      rcases List.mem_cons.mp hx with rfl | hx2
      · exact hut
      · exact txnLe_trans hut (hu x hx2)

lemma foldl_insertTxn_pairwise :
    ∀ (l acc : List Txn), acc.Pairwise txnLe →
      (List.foldl (fun acc t => insertTxn t acc) acc l).Pairwise txnLe := by
  intro l
  induction l with
  | nil => intro acc h; exact h
  | cons t rest ih => intro acc h; exact ih _ (insertTxn_pairwise h)

lemma sortTxns_pairwise (l : List Txn) : (sortTxns l).Pairwise txnLe :=
  foldl_insertTxn_pairwise l [] (by simp)

lemma insertTxn_perm (t : Txn) : ∀ l : List Txn, (insertTxn t l).Perm (t :: l) := by
  intro l
  induction l with
  | nil => simp [insertTxn]
  | cons u us ih =>
    by_cases h : strLeB u.date t.date = true
    · rw [insertTxn, if_pos h]
      exact (ih.cons u).trans (List.Perm.swap t u us)
    · rw [insertTxn, if_neg h]

lemma foldl_insertTxn_perm :
    ∀ (l acc : List Txn), (List.foldl (fun acc t => insertTxn t acc) acc l).Perm (acc ++ l) := by
  intro l
  induction l with
  | nil => intro acc; simp
  | cons t rest ih =>
    intro acc
    refine ((ih (insertTxn t acc)).trans
      (((insertTxn_perm t acc).append_right rest).trans ?_))
    simpa using (@List.perm_middle Txn t acc rest).symm

lemma sortTxns_perm (l : List Txn) : (sortTxns l).Perm l := by
  simpa using foldl_insertTxn_perm l []

lemma insertTxn_filter {t : Txn} {d : String} :
    ∀ {l : List Txn}, l.Pairwise txnLe →
      (insertTxn t l).filter (fun u => u.date == d) =
      l.filter (fun u => u.date == d) ++ (if t.date == d then [t] else []) := by
  intro l
  induction l with
  | nil =>
    intro _
    by_cases htd : (t.date == d) = true <;> simp [insertTxn, List.filter_cons, htd]
  | cons u us ih =>
    intro hp
    rcases List.pairwise_cons.mp hp with ⟨hu, hus⟩
    by_cases h : strLeB u.date t.date = true
    · rw [insertTxn, if_pos h]
      by_cases hud : (u.date == d) = true
      · simp only [List.filter_cons, hud, if_true, ih hus]
        simp
      · simp only [List.filter_cons, hud, Bool.false_eq_true, if_false, ih hus]
    · rw [insertTxn, if_neg h]
      by_cases htd : (t.date == d) = true
      · have hnone : ∀ x ∈ u :: us, (x.date == d) = false := by
          intro x hx
          by_contra hxd
          have hxd2 : (x.date == d) = true := by
            revert hxd; cases hb : (x.date == d) <;> simp
          have hxt : x.date = t.date := (beq_iff_eq.mp hxd2).trans (beq_iff_eq.mp htd).symm
          have hux : txnLe u x := by
            rcases List.mem_cons.mp hx with rfl | hx2
            · exact strLeB_refl _
            · exact hu x hx2
          have hux2 : strLeB u.date t.date = true := by rw [← hxt]; exact hux
          exact h hux2
        have hfil : (u :: us).filter (fun u => u.date == d) = [] := by
          rw [List.filter_eq_nil_iff]
          intro a ha
          simp [hnone a ha]
        simp [List.filter_cons, htd, hfil, hnone u (by simp)]
      · simp [List.filter_cons, htd]

lemma foldl_insertTxn_filter (d : String) :
    ∀ (l acc : List Txn), acc.Pairwise txnLe →
      (List.foldl (fun acc t => insertTxn t acc) acc l).filter (fun u => u.date == d) =
      acc.filter (fun u => u.date == d) ++ l.filter (fun u => u.date == d) := by
  intro l
  induction l with
  | nil => intro acc _; simp
  | cons t rest ih =>
    intro acc hp
    rw [List.foldl_cons, ih _ (insertTxn_pairwise hp), insertTxn_filter hp]
    by_cases htd : (t.date == d) = true <;>
      simp [List.filter_cons, htd, List.append_assoc]

lemma sortTxns_filter (l : List Txn) (d : String) :
    (sortTxns l).filter (fun u => u.date == d) = l.filter (fun u => u.date == d) := by
  simpa using foldl_insertTxn_filter d l [] (by simp)

lemma insertTxn_of_all_le {t : Txn} :
    ∀ {l : List Txn}, (∀ u ∈ l, txnLe u t) → insertTxn t l = l ++ [t] := by
  intro l
  induction l with
  | nil => intro _; rfl
  | cons u us ih =>
    intro h
    have h1 : strLeB u.date t.date = true := h u (by simp)
    rw [insertTxn, if_pos h1, ih (fun x hx => h x (by simp [hx]))]
    simp

lemma foldl_insertTxn_of_sorted :
    ∀ (l acc : List Txn), (acc ++ l).Pairwise txnLe →
      List.foldl (fun acc t => insertTxn t acc) acc l = acc ++ l := by
  intro l
  induction l with
  | nil => intro acc _; simp
  | cons t rest ih =>
    intro acc hp
    have hle : ∀ u ∈ acc, txnLe u t := by
      intro u hu
      rcases List.pairwise_append.mp hp with ⟨_, _, hrel⟩
      exact hrel u hu t (by simp)
    rw [List.foldl_cons, insertTxn_of_all_le hle]
    have h2 := ih (acc ++ [t]) (by simpa [List.append_assoc] using hp)
    rw [h2, List.append_assoc]
    simp

lemma sortTxns_of_sorted {l : List Txn} (h : l.Pairwise txnLe) : sortTxns l = l := by
  simpa using foldl_insertTxn_of_sorted l [] (by simpa using h)

/-! ## Date normalization: well-formedness and idempotence -/

/-- Well-formedness of a `DATE_GUESS` match: all groups are digit runs with
the lengths the pattern allows. -/
def dgWf (g : DGMatch) : Prop :=
  (∀ c ∈ g.g1, isDig c = true) ∧ (∀ c ∈ g.g2, isDig c = true) ∧
  (∀ c ∈ g.g3, isDig c = true) ∧
  (if g.ymd then g.g1.length = 4 ∧ g.g2.length ≤ 2 ∧ g.g3.length ≤ 2
   else g.g1.length ≤ 2 ∧ g.g2.length ≤ 2 ∧ g.g3.length = 4)

lemma d12cands_spec {cs : List Char} {g r : List Char} (h : (g, r) ∈ d12cands cs) :
    (∀ c ∈ g, isDig c = true) ∧ g.length ≤ 2 := by
  unfold d12cands at h
  rcases List.mem_append.mp h with h1 | h1
  · rcases cs with _ | ⟨a, _ | ⟨b, r2⟩⟩ <;> simp at h1
    rcases h1 with ⟨⟨ha, hb⟩, rfl, rfl⟩
    refine ⟨fun c hc => ?_, by simp⟩
    rcases List.mem_cons.mp hc with rfl | hc2
    · exact ha
    rcases List.mem_cons.mp hc2 with rfl | hc3
    · exact hb
    · simp at hc3
  · rcases cs with _ | ⟨a, r2⟩ <;> simp at h1
    rcases h1 with ⟨ha, rfl, rfl⟩
    refine ⟨fun c hc => ?_, by simp⟩
    rcases List.mem_cons.mp hc with rfl | hc2
    · exact ha
    · simp at hc2

lemma d4m_spec {cs g : List Char} {r : List Char} (h : d4m cs = some (g, r)) :
    (∀ c ∈ g, isDig c = true) ∧ g.length = 4 := by
  unfold d4m at h
  rcases cs with _ | ⟨a, _ | ⟨b, _ | ⟨c, _ | ⟨d, r2⟩⟩⟩⟩ <;> simp at h
  rcases h with ⟨⟨⟨⟨ha, hb⟩, hc⟩, hd⟩, rfl, rfl⟩
  refine ⟨fun x hx => ?_, rfl⟩
  rcases List.mem_cons.mp hx with rfl | hx2
  · exact ha
  rcases List.mem_cons.mp hx2 with rfl | hx3
  · exact hb
  rcases List.mem_cons.mp hx3 with rfl | hx4
  · exact hc
  rcases List.mem_cons.mp hx4 with rfl | hx5
  · exact hd
  · simp at hx5

lemma dgAlt1_spec {cs : List Char} {g : DGMatch} (h : dgAlt1 cs = some g) :
    g.ymd = true ∧ dgWf g := by
  unfold dgAlt1 at h
  rcases h4 : d4m cs with _ | ⟨y, r1⟩ <;> rw [h4] at h <;> dsimp only at h
  · simp at h
  rcases hs : sepM r1 with _ | ⟨c1, r2⟩ <;> rw [hs] at h <;> dsimp only at h
  · simp at h
  rcases List.exists_of_findSome?_eq_some h with ⟨⟨m, r3⟩, hm, hinner⟩
  rcases hs2 : sepM r3 with _ | ⟨c2, r4⟩ <;> rw [hs2] at hinner <;> dsimp only at hinner
  · simp at hinner
  rcases List.exists_of_findSome?_eq_some hinner with ⟨⟨dd, r5⟩, hd, hsome⟩
  simp only [Option.some.injEq] at hsome
  subst hsome
  have hy := d4m_spec h4
  have hm2 := d12cands_spec hm
  have hd2 := d12cands_spec hd
  exact ⟨rfl, hy.1, hm2.1, hd2.1, by simp [dgWf, hy.2, hm2.2, hd2.2]⟩

lemma dgAlt2_spec {cs : List Char} {g : DGMatch} (h : dgAlt2 cs = some g) :
    g.ymd = false ∧ dgWf g := by
  unfold dgAlt2 at h
  rcases List.exists_of_findSome?_eq_some h with ⟨⟨dd, r1⟩, hd, hinner⟩
  rcases hs : sepM r1 with _ | ⟨c1, r2⟩ <;> rw [hs] at hinner <;> dsimp only at hinner
  · simp at hinner
  rcases List.exists_of_findSome?_eq_some hinner with ⟨⟨m, r3⟩, hm, hinner2⟩
  rcases hs2 : sepM r3 with _ | ⟨c2, r4⟩ <;> rw [hs2] at hinner2 <;> dsimp only at hinner2
  · simp at hinner2
  rcases h4 : d4m r4 with _ | ⟨y, r5⟩ <;> rw [h4] at hinner2 <;> dsimp only at hinner2
  · simp at hinner2
  simp only [Option.some.injEq] at hinner2
  subst hinner2
  have hy := d4m_spec h4
  have hm2 := d12cands_spec hm
  have hd2 := d12cands_spec hd
  exact ⟨rfl, hd2.1, hm2.1, hy.1, by simp [dgWf, hy.2, hm2.2, hd2.2]⟩

lemma dateGuessSearch_spec :
    ∀ {cs : List Char} {g : DGMatch}, dateGuessSearch cs = some g → dgWf g := by
  intro cs
  induction cs with
  | nil => intro g h; simp [dateGuessSearch] at h
  | cons c rest ih =>
    intro g h
    rw [dateGuessSearch] at h
    rcases h1 : dgAlt1 (c :: rest) with _ | g1 <;> rw [h1] at h
    · rcases h2 : dgAlt2 (c :: rest) with _ | g2 <;> rw [h2] at h
      · exact ih h
      · cases h
        exact (dgAlt2_spec h2).2
    · cases h
      exact (dgAlt1_spec h1).2

/-- Exactly the shape `YYYY-MM-DD`: four digits, dash, two digits, dash, two
digits, nothing else. -/
def isoMatch : List Char → Bool
  | [a, b, c, d, e, f, g, h, i, j] =>
    isDig a && isDig b && isDig c && isDig d && (e = '-') && isDig f && isDig g &&
    (h = '-') && isDig i && isDig j
  | _ => false

lemma dateGuessSearch_formatYmd (y mm dd : Nat) :
    dateGuessSearch (formatYmd y mm dd).toList =
      some ⟨true, pad4 y, pad2 mm, pad2 dd⟩ := by
  show dateGuessSearch (pad4 y ++ '-' :: pad2 mm ++ '-' :: pad2 dd) = _
  simp [pad4, pad2, dateGuessSearch, dgAlt1, d4m, sepM, d12cands, isDig_digitChar,
        List.findSome?]

lemma isoMatch_formatYmd (y mm dd : Nat) :
    isoMatch (formatYmd y mm dd).toList = true := by
  show isoMatch (pad4 y ++ '-' :: pad2 mm ++ '-' :: pad2 dd) = true
  simp [pad4, pad2, isoMatch, isDig_digitChar]

lemma formatYmd_ne_empty (y mm dd : Nat) : formatYmd y mm dd ≠ "" := by
  intro h
  have h2 := congrArg String.data h
  simp [formatYmd, pad4, pad2] at h2

lemma normalizeDateStr_formatYmd {y mm dd : Nat}
    (hy : y < 10000) (hm : mm < 100) (hd : dd < 100) :
    normalizeDateStr (formatYmd y mm dd) = formatYmd y mm dd := by
  unfold normalizeDateStr
  rw [dateGuessSearch_formatYmd]
  show formatYmd (natOfDigits (pad4 y)) (natOfDigits (pad2 mm))
      (natOfDigits (pad2 dd)) = _
  rw [natOfDigits_pad4 hy, natOfDigits_pad2 hm, natOfDigits_pad2 hd]

lemma normalizeDateStr_cases (s : String) :
    (∃ y mm dd, y < 10000 ∧ mm < 100 ∧ dd < 100 ∧
       normalizeDateStr s = formatYmd y mm dd) ∨
    (normalizeDateStr s = s ∧ dateGuessSearch s.toList = Option.none) := by
  unfold normalizeDateStr
  rcases h : dateGuessSearch s.toList with _ | g
  · right; exact ⟨rfl, rfl⟩
  · left
    obtain ⟨h1, h2, h3, h4⟩ := dateGuessSearch_spec h
    have hmm : natOfDigits g.g2 < 100 := by
      have hlt := natOfDigits_lt g.g2 h2
      have hlen : g.g2.length ≤ 2 := by
        split at h4
        · exact h4.2.1
        · exact h4.2.1
      have hle := Nat.pow_le_pow_right (show 1 ≤ 10 by norm_num) hlen
      have h100 : (10 : Nat) ^ 2 = 100 := by norm_num
      omega
    cases hymd : g.ymd
    · rw [hymd] at h4
      simp only [Bool.false_eq_true, if_false] at h4
      refine ⟨natOfDigits g.g3, natOfDigits g.g2, natOfDigits g.g1, ?_, hmm, ?_, by dsimp only; rw [hymd]; simp⟩
      · have hlt := natOfDigits_lt g.g3 h3
        rw [h4.2.2] at hlt
        norm_num at hlt
        exact hlt
      · have hlt := natOfDigits_lt g.g1 h1
        have hle := Nat.pow_le_pow_right (show 1 ≤ 10 by norm_num) h4.1
        have h100 : (10 : Nat) ^ 2 = 100 := by norm_num
        omega
    · rw [hymd] at h4
      simp only [if_true] at h4
      refine ⟨natOfDigits g.g1, natOfDigits g.g2, natOfDigits g.g3, ?_, hmm, ?_, by dsimp only; rw [hymd]; simp⟩
      · have hlt := natOfDigits_lt g.g1 h1
        rw [h4.1] at hlt
        norm_num at hlt
        exact hlt
      · have hlt := natOfDigits_lt g.g3 h3
        have hle := Nat.pow_le_pow_right (show 1 ≤ 10 by norm_num) h4.2.2
        have h100 : (10 : Nat) ^ 2 = 100 := by norm_num
        omega

lemma normalizeDateStr_idem (s : String) :
    normalizeDateStr (normalizeDateStr s) = normalizeDateStr s := by
  rcases normalizeDateStr_cases s with ⟨y, mm, dd, hy, hm, hd, heq⟩ | ⟨heq, hnone⟩
  · rw [heq, normalizeDateStr_formatYmd hy hm hd]
  · rw [heq]
    exact heq

lemma normalizeDateStr_iso_or_nomatch (s : String) :
    isoMatch (normalizeDateStr s).toList = true ∨
      (normalizeDateStr s = s ∧ dateGuessSearch (normalizeDateStr s).toList = Option.none) := by
  rcases normalizeDateStr_cases s with ⟨y, mm, dd, _, _, _, heq⟩ | ⟨heq, hnone⟩
  · left; rw [heq]; exact isoMatch_formatYmd y mm dd
  · right; rw [heq]; exact ⟨rfl, hnone⟩

lemma string_data_nil_iff (s : String) : s.data = [] ↔ s = "" := by
  constructor
  · intro h
    cases s with
    | mk data =>
      dsimp only at h
      subst h
      rfl
  · intro h
    subst h
    rfl

lemma normalize_date_str {s : String} (hs : s ≠ "") :
    _normalize_date (.str s) = .ok (some (normalizeDateStr s)) := by
  unfold _normalize_date
  have hemp : s.data.isEmpty = false := by
    cases hd : s.data with
    | nil => exact absurd ((string_data_nil_iff s).mp hd) hs
    | cons c r => rfl
  simp [pyTruthy, hemp]

lemma normalize_date_ok_some {v : PyVal} {d : String}
    (h : _normalize_date v = .ok (some d)) :
    ∃ s, v = .str s ∧ d = normalizeDateStr s ∧ s ≠ "" := by
  unfold _normalize_date at h
  split at h
  · simp at h
  · cases v with
    | str s =>
      simp only [Except.ok.injEq, Option.some.injEq] at h
      refine ⟨s, rfl, h.symm, ?_⟩
      rename_i htr
      intro hs
      cases hs
      simp [pyTruthy] at htr
    | none => simp [pyTruthy] at *
    | bool b => simp at h
    | int n => simp at h
    | float f => simp at h
    | list xs => simp at h
    | dict kvs => simp at h

/-! ## The collect loop: invariants of retained transactions -/

/-- Facts true of every transaction the collect loop retains: a truthy date
fixed by `_normalize_date`, the ISO-or-unmatched dichotomy, and a truthy
stripped description. -/
def goodTxn (t : Txn) : Prop :=
  t.date ≠ "" ∧ normalizeDateStr t.date = t.date ∧
  (isoMatch t.date.toList = true ∨ dateGuessSearch t.date.toList = Option.none) ∧
  t.desc ≠ "" ∧ pyStripStr t.desc = t.desc

lemma collectTxns_ok_spec :
    ∀ (es : List PyVal) (seen : List TxnKey) (acc : List Txn) (dup d2 : Bool)
      (out : List Txn),
      collectTxns es seen acc dup = .ok (out, d2) →
      (∀ t ∈ acc, ∃ k ∈ seen, keyEqv (txnKey t) k = true) →
      acc.Pairwise (fun a b => keyEqv (txnKey a) (txnKey b) = false) →
      (∀ t ∈ acc, goodTxn t) →
      out.Pairwise (fun a b => keyEqv (txnKey a) (txnKey b) = false) ∧
        (∀ t ∈ out, goodTxn t) := by
  intro es
  induction es with
  | nil =>
    intro seen acc dup d2 out h hseen hpair hgood
    simp only [collectTxns, Except.ok.injEq, Prod.mk.injEq] at h
    rcases h with ⟨rfl, rfl⟩
    exact ⟨hpair, hgood⟩
  | cons t rest ih =>
    intro seen acc dup d2 out h hseen hpair hgood
    cases t with
    | dict kvs =>
      rw [collectTxns] at h
      rcases hnd : _normalize_date (pyOr (dictLookup kvs "date")
          (pyOr (dictLookup kvs "Date") (dictLookup kvs "date_str"))) with e | od
      · rw [hnd] at h
        simp only [bind, Except.bind] at h
        simp at h
      · rw [hnd] at h
        simp only [bind, Except.bind] at h
        split at h
        · rename_i amt2 d a hamt
          split at h
          · exact ih seen acc dup d2 out h hseen hpair hgood
          · rename_i hguard
            push_neg at hguard
            split at h
            · exact ih _ acc _ d2 out h hseen hpair hgood
            · rename_i hsn
              obtain ⟨s, hvs, hds, hsne⟩ := normalize_date_ok_some hnd
              have hnewgood : goodTxn ⟨d, pyStripStr (pyStr (pyOr (dictLookup kvs "description")
                  (pyOr (dictLookup kvs "Description") (.str "")))), a,
                  _to_float (pyOr (dictLookup kvs "balance") (dictLookup kvs "Balance")),
                  dictLookup kvs "category"⟩ := by
                refine ⟨hguard.1, ?_, ?_, hguard.2, pyStripStr_idem _⟩
                · rw [hds]; exact normalizeDateStr_idem s
                · rw [hds]
                  rcases normalizeDateStr_iso_or_nomatch s with hiso | ⟨_, hnm⟩
                  · exact Or.inl hiso
                  · exact Or.inr hnm
              refine ih _ _ dup d2 out h ?_ ?_ ?_
              · intro u hu
                rcases List.mem_append.mp hu with hu1 | hu2
                · obtain ⟨k, hk, hke⟩ := hseen u hu1
                  exact ⟨k, by simp [hk], hke⟩
                · simp only [List.mem_singleton] at hu2
                  subst hu2
                  refine ⟨_, List.mem_cons_self _ _, ?_⟩
                  exact keyEqv_refl _
              · rw [List.pairwise_append]
                refine ⟨hpair, by simp, ?_⟩
                intro x hx u hu
                simp only [List.mem_singleton] at hu
                by_contra hxe
                have hxe2 : keyEqv (txnKey x) (txnKey u) = true := by
                  revert hxe; cases hb : keyEqv (txnKey x) (txnKey u) <;> simp
                obtain ⟨k, hk, hke⟩ := hseen x hx
                have htk : keyEqv (txnKey u) k = true := keyEqv_trans (keyEqv_symm hxe2) hke
                have hany : seen.any (keyEqv (txnKey u)) = true :=
                  List.any_eq_true.mpr ⟨k, hk, htk⟩
                rw [hu] at hany
                exact hsn hany
              · intro u hu
                rcases List.mem_append.mp hu with hu1 | hu2
                · exact hgood u hu1
                · simp only [List.mem_singleton] at hu2
                  subst hu2
                  exact hnewgood
        · exact ih seen acc dup d2 out h hseen hpair hgood
    | none =>
      rw [show collectTxns (PyVal.none :: rest) seen acc dup
          = collectTxns rest seen acc dup from rfl] at h
      exact ih seen acc dup d2 out h hseen hpair hgood
    | bool b =>
      rw [show collectTxns (PyVal.bool b :: rest) seen acc dup
          = collectTxns rest seen acc dup from rfl] at h
      exact ih seen acc dup d2 out h hseen hpair hgood
    | int n =>
      rw [show collectTxns (PyVal.int n :: rest) seen acc dup
          = collectTxns rest seen acc dup from rfl] at h
      exact ih seen acc dup d2 out h hseen hpair hgood
    | float f =>
      rw [show collectTxns (PyVal.float f :: rest) seen acc dup
          = collectTxns rest seen acc dup from rfl] at h
      exact ih seen acc dup d2 out h hseen hpair hgood
    | str s =>
      rw [show collectTxns (PyVal.str s :: rest) seen acc dup
          = collectTxns rest seen acc dup from rfl] at h
      exact ih seen acc dup d2 out h hseen hpair hgood
    | list xs =>
      rw [show collectTxns (PyVal.list xs :: rest) seen acc dup
          = collectTxns rest seen acc dup from rfl] at h
      exact ih seen acc dup d2 out h hseen hpair hgood

lemma reconcile_ok_spec {p : PyVal} {ts : List Txn} {dup : Bool}
    (h : reconcile p = .ok (ts, dup)) :
    ts.Pairwise (fun a b => keyEqv (txnKey a) (txnKey b) = false) ∧
      (∀ t ∈ ts, goodTxn t) ∧ ts.Pairwise txnLe := by
  unfold reconcile at h
  rcases hit : pyIter (pyOr (rawTxnList p) (.list [])) with e | es
  · rw [hit] at h
    simp only [bind, Except.bind] at h
    simp at h
  rw [hit] at h
  simp only [bind, Except.bind] at h
  rcases hc : collectTxns es [] [] false with e | r
  · rw [hc] at h
    simp at h
  rw [hc] at h
  obtain ⟨ts0, dup0⟩ := r
  simp only [pure, Except.pure, Except.ok.injEq, Prod.mk.injEq] at h
  obtain ⟨rfl, rfl⟩ := h
  obtain ⟨hpair, hgood⟩ :=
    collectTxns_ok_spec es [] [] false dup0 ts0 hc (by simp) (by simp) (by simp)
  have hperm := sortTxns_perm ts0
  refine ⟨?_, ?_, sortTxns_pairwise ts0⟩
  · have hsymm : Symmetric (fun a b : Txn => keyEqv (txnKey a) (txnKey b) = false) := by
      intro a b hab
      by_contra hba
      have hba2 : keyEqv (txnKey b) (txnKey a) = true := by
        revert hba; cases hb : keyEqv (txnKey b) (txnKey a) <;> simp
      have := keyEqv_symm hba2
      rw [this] at hab
      cases hab
    exact (hperm.pairwise_iff (fun hab => hsymm hab)).mpr hpair
  · intro t ht
    exact hgood t (hperm.mem_iff.mp ht)

lemma post_process_ok_spec {p : PyVal} {q : Quality} {f : PyVal} {q1 : Quality}
    (h : _post_process_extracted p q = .ok (f, q1)) :
    ∃ ts dup, reconcile p = .ok (ts, dup) ∧
      (∃ bank holder num month atype ob cb tc td adb,
        f = mkFields bank holder num month atype ob cb tc td adb ts) ∧
      pyGetD f "Transactions" = .list (ts.map Txn.toPyVal) ∧
      q1.duplicate_entries = dup := by
  unfold _post_process_extracted at h
  rcases hr : reconcile p with e | r
  · rw [hr] at h
    simp only [bind, Except.bind] at h
    simp at h
  rw [hr] at h
  simp only [bind, Except.bind] at h
  obtain ⟨ts, dup⟩ := r
  rcases hb0 : acctField (pyOr (pyGetD (_coerce_extracted p) "Account Info") (PyVal.dict [])) "Bank name" "bank_name" with e | bank
  · rw [hb0] at h
    simp only [bind, Except.bind] at h
    simp at h
  rw [hb0] at h
  simp only [bind, Except.bind] at h
  rcases hb1 : acctField (pyOr (pyGetD (_coerce_extracted p) "Account Info") (PyVal.dict [])) "Account holder name" "account_holder_name" with e | holder
  · rw [hb1] at h
    simp only [bind, Except.bind] at h
    simp at h
  rw [hb1] at h
  simp only [bind, Except.bind] at h
  rcases hb2 : acctField (pyOr (pyGetD (_coerce_extracted p) "Account Info") (PyVal.dict [])) "Account number" "account_number" with e | acctNumRaw
  · rw [hb2] at h
    simp only [bind, Except.bind] at h
    simp at h
  rw [hb2] at h
  simp only [bind, Except.bind] at h
  rcases hb3 : acctField (pyOr (pyGetD (_coerce_extracted p) "Account Info") (PyVal.dict [])) "Statement month" "statement_month" with e | month
  · rw [hb3] at h
    simp only [bind, Except.bind] at h
    simp at h
  rw [hb3] at h
  simp only [bind, Except.bind] at h
  rcases hb4 : acctField (pyOr (pyGetD (_coerce_extracted p) "Account Info") (PyVal.dict [])) "Account type" "account_type" with e | atype
  · rw [hb4] at h
    simp only [bind, Except.bind] at h
    simp at h
  rw [hb4] at h
  simp only [bind, Except.bind] at h
  rcases hb5 : sumField (pyOr (pyGetD (_coerce_extracted p) "Summary Values") (PyVal.dict [])) "Opening balance" "opening_balance" with e | ob
  · rw [hb5] at h
    simp only [bind, Except.bind] at h
    simp at h
  rw [hb5] at h
  simp only [bind, Except.bind] at h
  rcases hb6 : sumField (pyOr (pyGetD (_coerce_extracted p) "Summary Values") (PyVal.dict [])) "Closing balance" "closing_balance" with e | cb
  · rw [hb6] at h
    simp only [bind, Except.bind] at h
    simp at h
  rw [hb6] at h
  simp only [bind, Except.bind] at h
  rcases hb7 : sumField (pyOr (pyGetD (_coerce_extracted p) "Summary Values") (PyVal.dict [])) "Total credits" "total_credits" with e | tc
  · rw [hb7] at h
    simp only [bind, Except.bind] at h
    simp at h
  rw [hb7] at h
  simp only [bind, Except.bind] at h
  rcases hb8 : sumField (pyOr (pyGetD (_coerce_extracted p) "Summary Values") (PyVal.dict [])) "Total debits" "total_debits" with e | td
  · rw [hb8] at h
    simp only [bind, Except.bind] at h
    simp at h
  rw [hb8] at h
  simp only [bind, Except.bind] at h
  rcases hb9 : sumField (pyOr (pyGetD (_coerce_extracted p) "Summary Values") (PyVal.dict [])) "Average daily balance" "average_daily_balance" with e | adb
  · rw [hb9] at h
    simp only [bind, Except.bind] at h
    simp at h
  rw [hb9] at h
  simp only [bind, Except.bind] at h
  simp only [pure, Except.pure, Except.ok.injEq, Prod.mk.injEq] at h
  obtain ⟨rfl, rfl⟩ := h
  exact ⟨ts, dup, rfl, ⟨_, _, _, _, _, _, _, _, _, _, rfl⟩, rfl, rfl⟩

/-! ## Observations on emitted transaction dicts (for the claim statements) -/

/-- The dedup key as read back off an emitted transaction dict. -/
def txnKeyOfVal (v : PyVal) : Option TxnKey :=
  match v with
  | .dict kvs =>
    match dictLookup kvs "date", dictLookup kvs "description", dictLookup kvs "amount" with
    | .str d, .str ds, .float a => some ⟨d, pyLower ds, a⟩
    | _, _, _ => Option.none
  | _ => Option.none

/-- The date string of an emitted transaction dict. -/
def txnDateOfVal (v : PyVal) : Option String :=
  match v with
  | .dict kvs =>
    match dictLookup kvs "date" with
    | .str d => some d
    | _ => Option.none
  | _ => Option.none

/-- The amount of an emitted transaction dict. -/
def txnAmtOfVal (v : PyVal) : Option PyFloat :=
  match v with
  | .dict kvs =>
    match dictLookup kvs "amount" with
    | .float a => some a
    | _ => Option.none
  | _ => Option.none

lemma txnKeyOfVal_toPyVal (t : Txn) : txnKeyOfVal (Txn.toPyVal t) = some (txnKey t) := rfl

lemma txnDateOfVal_toPyVal (t : Txn) : txnDateOfVal (Txn.toPyVal t) = some t.date := rfl

lemma txnAmtOfVal_toPyVal (t : Txn) : txnAmtOfVal (Txn.toPyVal t) = some t.amount := rfl

/-! ## Conditions under which the engine cannot raise (for the amended C2) -/

/-- A section of the coerced payload is a mapping (after the `or {}`
defaulting). -/
def sectionIsDict (p : PyVal) (k : String) : Prop :=
  ∃ kvs, pyOr (pyGetD (_coerce_extracted p) k) (.dict []) = .dict kvs

/-- The date value the loop will pass to `_normalize_date` is a string or
falsy (the only inputs on which `_normalize_date` cannot raise). -/
def dateFieldOk (v : PyVal) : Prop :=
  match v with
  | .dict kvs =>
    (∃ s, pyOr (dictLookup kvs "date")
        (pyOr (dictLookup kvs "Date") (dictLookup kvs "date_str")) = .str s) ∨
    pyTruthy (pyOr (dictLookup kvs "date")
        (pyOr (dictLookup kvs "Date") (dictLookup kvs "date_str"))) = false
  | _ => True

lemma normalize_date_total {v : PyVal}
    (hv : (∃ s, v = .str s) ∨ pyTruthy v = false) :
    ∃ r, _normalize_date v = .ok r := by
  unfold _normalize_date
  rcases hv with ⟨s, rfl⟩ | hfal
  · by_cases ht : pyTruthy (.str s) = true <;> simp [ht]
  · simp [hfal]

lemma collectTxns_total :
    ∀ (es : List PyVal) (seen : List TxnKey) (acc : List Txn) (dup : Bool),
      (∀ v ∈ es, dateFieldOk v) →
      ∃ r, collectTxns es seen acc dup = .ok r := by
  intro es
  induction es with
  | nil => intro seen acc dup _; exact ⟨(acc, dup), rfl⟩
  | cons t rest ih =>
    intro seen acc dup hds
    have hrest : ∀ v ∈ rest, dateFieldOk v := fun v hv => hds v (by simp [hv])
    cases t with
    | dict kvs =>
      have hd : dateFieldOk (.dict kvs) := hds _ (by simp)
      obtain ⟨r0, hr0⟩ := normalize_date_total (by simpa [dateFieldOk] using hd)
      rcases hres : collectTxns (PyVal.dict kvs :: rest) seen acc dup with e | r
      · exfalso
        rw [collectTxns, hr0] at hres
        simp only [bind, Except.bind] at hres
        rcases r0 with _ | d
        · obtain ⟨r2, hok⟩ := ih seen acc dup hrest
          rw [hok] at hres
          exact Except.noConfusion hres
        · split at hres
          · rename_i amt2 d3 a3 hamt3
            split at hres
            · obtain ⟨r2, hok⟩ := ih seen acc dup hrest
              rw [hok] at hres
              exact Except.noConfusion hres
            · split at hres
              · obtain ⟨r2, hok⟩ := ih seen acc true hrest
                rw [hok] at hres
                exact Except.noConfusion hres
              · obtain ⟨r2, hok⟩ := ih _ _ dup hrest
                rw [hok] at hres
                exact Except.noConfusion hres
          · obtain ⟨r2, hok⟩ := ih seen acc dup hrest
            rw [hok] at hres
            exact Except.noConfusion hres
      · exact ⟨r, rfl⟩
    | none => rw [show collectTxns (PyVal.none :: rest) seen acc dup
        = collectTxns rest seen acc dup from rfl]; exact ih seen acc dup hrest
    | bool b => rw [show collectTxns (PyVal.bool b :: rest) seen acc dup
        = collectTxns rest seen acc dup from rfl]; exact ih seen acc dup hrest
    | int n => rw [show collectTxns (PyVal.int n :: rest) seen acc dup
        = collectTxns rest seen acc dup from rfl]; exact ih seen acc dup hrest
    | float fl => rw [show collectTxns (PyVal.float fl :: rest) seen acc dup
        = collectTxns rest seen acc dup from rfl]; exact ih seen acc dup hrest
    | str s => rw [show collectTxns (PyVal.str s :: rest) seen acc dup
        = collectTxns rest seen acc dup from rfl]; exact ih seen acc dup hrest
    | list xs => rw [show collectTxns (PyVal.list xs :: rest) seen acc dup
        = collectTxns rest seen acc dup from rfl]; exact ih seen acc dup hrest

lemma post_process_total {p : PyVal} (q : Quality)
    (hacct : sectionIsDict p "Account Info")
    (hsum : sectionIsDict p "Summary Values")
    (hiter : ∃ es, pyIter (pyOr (rawTxnList p) (.list [])) = .ok es)
    (hdates : ∀ es, pyIter (pyOr (rawTxnList p) (.list [])) = .ok es →
      ∀ v ∈ es, dateFieldOk v) :
    ∃ r, _post_process_extracted p q = .ok r := by
  obtain ⟨es, hes⟩ := hiter
  obtain ⟨⟨ts, dup⟩, hcol⟩ := collectTxns_total es [] [] false (hdates es hes)
  have hrec : reconcile p = .ok (sortTxns ts, dup) := by
    unfold reconcile
    rw [hes]
    simp only [bind, Except.bind]
    rw [hcol]
    rfl
  obtain ⟨akvs, hak⟩ := hacct
  obtain ⟨skvs, hsk⟩ := hsum
  unfold _post_process_extracted
  simp only [bind, Except.bind]
  rw [hrec, hak, hsk]
  simp only [bind, Except.bind, acctField, sumField, pyGetAttr]
  exact ⟨_, rfl⟩

/-! ## Re-feeding the engine its own output (for C4) -/

lemma pyTruthy_str_of_ne {s : String} (h : s ≠ "") : pyTruthy (.str s) = true := by
  simp only [pyTruthy]
  cases hd : s.data with
  | nil => exact absurd ((string_data_nil_iff s).mp hd) h
  | cons c r => rfl

lemma pyTruthy_float_of_ne {f : PyFloat} (h : f.man ≠ 0) : pyTruthy (.float f) = true := by
  simp [pyTruthy, h]

/-- The amount and balance of a retained transaction survive re-extraction:
nonzero (else the `or`-chain degrades them to `None`) and fixed points of
`_to_float` (their float repr re-parses to the same value; magnitudes whose
repr is scientific notation, e.g. below `1e-4`, fail this). -/
def refeedOk (t : Txn) : Prop :=
  t.amount.man ≠ 0 ∧ _to_float (.float t.amount) = some t.amount ∧
  (∀ b, t.balance = some b → b.man ≠ 0 ∧ _to_float (.float b) = some b)

lemma collectTxns_cons_step (t : Txn) (rest : List PyVal) (seen : List TxnKey)
    (acc : List Txn) (dup : Bool)
    (hg : goodTxn t) (hr : refeedOk t)
    (hsn : seen.any (keyEqv (txnKey t)) = false) :
    collectTxns (Txn.toPyVal t :: rest) seen acc dup =
      collectTxns rest (txnKey t :: seen) (acc ++ [t]) dup := by
  obtain ⟨hdate, hnorm, _, hdesc, hstrip⟩ := hg
  obtain ⟨hman, hrt, hbal⟩ := hr
  have hnd : _normalize_date (pyOr (dictLookup (txnEntries t) "date")
      (pyOr (dictLookup (txnEntries t) "Date") (dictLookup (txnEntries t) "date_str"))) =
      .ok (some t.date) := by
    have e1 : dictLookup (txnEntries t) "date" = .str t.date := rfl
    rw [e1, pyOr, if_pos (pyTruthy_str_of_ne hdate), normalize_date_str hdate, hnorm]
  have hdescterm : pyStripStr (pyStr (pyOr (dictLookup (txnEntries t) "description")
      (pyOr (dictLookup (txnEntries t) "Description") (PyVal.str "")))) = t.desc := by
    have e1 : dictLookup (txnEntries t) "description" = .str t.desc := rfl
    rw [e1, pyOr, if_pos (pyTruthy_str_of_ne hdesc)]
    exact hstrip
  have hamt2 : _to_float (pyOr (dictLookup (txnEntries t) "amount")
      (dictLookup (txnEntries t) "Amount")) = some t.amount := by
    have e1 : dictLookup (txnEntries t) "amount" = .float t.amount := rfl
    rw [e1, pyOr, if_pos (pyTruthy_float_of_ne hman)]
    exact hrt
  have hbal2 : _to_float (pyOr (dictLookup (txnEntries t) "balance")
      (dictLookup (txnEntries t) "Balance")) = t.balance := by
    have e1 : dictLookup (txnEntries t) "balance" =
        (match t.balance with | some b => .float b | Option.none => .none) := rfl
    have e2 : dictLookup (txnEntries t) "Balance" = .none := rfl
    rw [e1, e2]
    rcases hb : t.balance with _ | b
    · rfl
    · rw [pyOr, if_pos (pyTruthy_float_of_ne (hbal b hb).1)]
      exact (hbal b hb).2
  have ecat : dictLookup (txnEntries t) "category" = t.category := rfl
  rw [show Txn.toPyVal t = .dict (txnEntries t) from rfl, collectTxns, hnd]
  simp only [bind, Except.bind]
  rw [hamt2, hdescterm, ecat, hbal2]
  split
  · rename_i d3 a3 hd3 ha3
    injection hd3 with h2
    injection ha3 with h3
    subst h2
    subst h3
    rw [if_neg (by push_neg; exact ⟨hdate, hdesc⟩)]
    have hsn2 : seen.any (keyEqv ⟨t.date, pyLower t.desc, t.amount⟩) = false := hsn
    rw [if_neg (by rw [hsn2]; exact Bool.false_ne_true)]
    rfl
  · rename_i hno
    exact (hno t.date t.amount rfl rfl).elim

lemma collectTxns_refeed :
    ∀ (ts : List Txn) (seen : List TxnKey) (acc : List Txn) (dup : Bool),
      (∀ t ∈ ts, goodTxn t) →
      (∀ t ∈ ts, refeedOk t) →
      (∀ t ∈ ts, seen.any (keyEqv (txnKey t)) = false) →
      ts.Pairwise (fun a b => keyEqv (txnKey a) (txnKey b) = false) →
      collectTxns (ts.map Txn.toPyVal) seen acc dup = .ok (acc ++ ts, dup) := by
  intro ts
  induction ts with
  | nil => intro seen acc dup _ _ _ _; simp [collectTxns]
  | cons t rest ih =>
    intro seen acc dup hgood href hsn hpair
    rcases List.pairwise_cons.mp hpair with ⟨hhead, hrest⟩
    have hseen2 : ∀ u ∈ rest, (txnKey t :: seen).any (keyEqv (txnKey u)) = false := by
      intro u hu
      have h1 : keyEqv (txnKey u) (txnKey t) = false := by
        by_contra hc
        have hc2 : keyEqv (txnKey u) (txnKey t) = true := by
          revert hc; cases hb : keyEqv (txnKey u) (txnKey t) <;> simp
        have hsymm := keyEqv_symm hc2
        rw [hhead u hu] at hsymm
        cases hsymm
      have h2 : seen.any (keyEqv (txnKey u)) = false := hsn u (by simp [hu])
      simp [List.any_cons, h1, h2]
    rw [List.map_cons, collectTxns_cons_step t _ seen acc dup (hgood t (by simp))
      (href t (by simp)) (hsn t (by simp)),
      ih (txnKey t :: seen) (acc ++ [t]) dup
        (fun u hu => hgood u (by simp [hu])) (fun u hu => href u (by simp [hu]))
        hseen2 hrest]
    simp

lemma rawTxnList_mkFields (bank holder num month atype : PyVal)
    (ob cb tc td adb : Option PyFloat) (ts : List Txn) :
    pyOr (rawTxnList (mkFields bank holder num month atype ob cb tc td adb ts))
      (.list []) = .list (ts.map Txn.toPyVal) := by
  cases ts with
  | nil => rfl
  | cons t rest => rfl

lemma reconcile_refeed {p : PyVal} {ts : List Txn} {dup : Bool}
    (h : reconcile p = .ok (ts, dup)) (href : ∀ t ∈ ts, refeedOk t)
    (bank holder num month atype : PyVal) (ob cb tc td adb : Option PyFloat) :
    reconcile (mkFields bank holder num month atype ob cb tc td adb ts) =
      .ok (ts, false) := by
  obtain ⟨hpair, hgood, hsorted⟩ := reconcile_ok_spec h
  unfold reconcile
  rw [rawTxnList_mkFields]
  simp only [pyIter, bind, Except.bind]
  rw [collectTxns_refeed ts [] [] false hgood href (by simp) hpair]
  simp only [List.nil_append]
  rw [sortTxns_of_sorted hsorted]
  rfl

lemma post_process_refeed {p : PyVal} {ts : List Txn} {dup : Bool}
    (h : reconcile p = .ok (ts, dup)) (href : ∀ t ∈ ts, refeedOk t)
    (bank holder num month atype : PyVal) (ob cb tc td adb : Option PyFloat)
    (q2 : Quality) :
    ∃ f2 q3, _post_process_extracted
        (mkFields bank holder num month atype ob cb tc td adb ts) q2 = .ok (f2, q3) ∧
      pyGetD f2 "Transactions" = .list (ts.map Txn.toPyVal) := by
  unfold _post_process_extracted
  simp only [bind, Except.bind]
  rw [reconcile_refeed h href bank holder num month atype ob cb tc td adb]
  exact ⟨_, _, rfl, rfl⟩

/-! ## Characterising the local insight fallback on engine fields (for C7) -/

/-- Number of retained transactions whose lowered description contains the
needle. -/
def descCount (ts : List Txn) (needle : String) : Nat :=
  ts.countP (fun t => containsSub (pyLower t.desc).toList needle.toList)

/-- Rule 1: the average-balance observation fires exactly when both the
opening and the closing balance are present. -/
def avgPart : Option PyFloat → Option PyFloat → List String
  | some o, some c => [avgTipStr (pfRound2 (pfHalf (pfAdd o c)))]
  | _, _ => []

/-- Rules 2 and 3: a count observation fires exactly when the count is
nonzero. -/
def cntPart (tip : Nat → String) (n : Nat) : List String :=
  if n ≠ 0 then [tip n] else []

/-- Rule 4: the net-positive-inflow observation fires exactly when both
totals are present, both are nonzero, and credits exceed debits. -/
def netPart : Option PyFloat → Option PyFloat → List String
  | some cv, some dv =>
    if cv.man ≠ 0 ∧ dv.man ≠ 0 ∧ pfLt dv cv = true then [netTipStr] else []
  | _, _ => []

/-- The rule-ordered observation list `_insights_local_fallback` produces on
an engine `fields` record with the given summary values and transactions. -/
def insightsSpec (ob cb tc td : Option PyFloat) (ts : List Txn) : List String :=
  let tips4 := avgPart ob cb ++ cntPart atmTipStr (descCount ts "atm") ++
    cntPart upiTipStr (descCount ts "upi") ++ netPart tc td
  if tips4.isEmpty then [noTipStr] else tips4

lemma countDescContains_map (ts : List Txn) (needle : String) :
    countDescContains (ts.map Txn.toPyVal) needle = .ok (descCount ts needle) := by
  induction ts with
  | nil => rfl
  | cons t rest ih =>
    rw [List.map_cons]
    have hstep : countDescContains (Txn.toPyVal t :: rest.map Txn.toPyVal) needle =
        (countDescContains (rest.map Txn.toPyVal) needle).bind fun n =>
          pure ((if containsSub (pyLower t.desc).toList needle.toList then 1 else 0) + n) := rfl
    rw [hstep, ih]
    simp only [Except.bind, pure, Except.pure, Except.ok.injEq]
    simp only [descCount, List.countP_cons]
    split <;> simp
    omega

/-- The summary-values sub-dict of an engine fields record. -/
def svDict (ob cb tc td adb : Option PyFloat) : PyVal :=
  .dict [("Opening balance", optFloatV ob), ("Closing balance", optFloatV cb),
    ("Total credits", optFloatV tc), ("Total debits", optFloatV td),
    ("Average daily balance", optFloatV adb)]

lemma getSV (bank holder num month atype : PyVal) (ob cb tc td adb : Option PyFloat)
    (ts : List Txn) :
    pyGetAttrD (mkFields bank holder num month atype ob cb tc td adb ts)
      "Summary Values" (.dict []) = .ok (svDict ob cb tc td adb) := rfl

lemma getTX (bank holder num month atype : PyVal) (ob cb tc td adb : Option PyFloat)
    (ts : List Txn) :
    pyGetAttrD (mkFields bank holder num month atype ob cb tc td adb ts)
      "Transactions" (.list []) = .ok (.list (ts.map Txn.toPyVal)) := rfl

lemma svOpening (ob cb tc td adb : Option PyFloat) :
    pyGetAttr (svDict ob cb tc td adb) "Opening balance" = .ok (optFloatV ob) := rfl

lemma svClosing (ob cb tc td adb : Option PyFloat) :
    pyGetAttr (svDict ob cb tc td adb) "Closing balance" = .ok (optFloatV cb) := rfl

lemma svCredits (ob cb tc td adb : Option PyFloat) :
    pyGetAttr (svDict ob cb tc td adb) "Total credits" = .ok (optFloatV tc) := rfl

lemma svDebits (ob cb tc td adb : Option PyFloat) :
    pyGetAttr (svDict ob cb tc td adb) "Total debits" = .ok (optFloatV td) := rfl

/-- On any engine fields record the local fallback returns normally and
produces exactly the rule-ordered observation list. -/
lemma insights_mkFields (bank holder num month atype : PyVal)
    (ob cb tc td adb : Option PyFloat) (ts : List Txn) :
    _insights_local_fallback (mkFields bank holder num month atype ob cb tc td adb ts) =
      .ok (insightsSpec ob cb tc td ts) := by
  unfold _insights_local_fallback
  simp only [getSV, getTX, svOpening, svClosing, svCredits, svDebits, pyIter,
    countDescContains_map, bind, Except.bind, pure, Except.pure]
  rcases ob with _ | o <;> rcases cb with _ | c <;> rcases tc with _ | tcv <;>
    rcases td with _ | tdv <;>
    simp [insightsSpec, avgPart, cntPart, netPart, optFloatV, isNoneV, pyOr,
      pyTruthy, pyFloatFn, pyNumVal, Except.bind, pure, Except.pure]
  all_goals (by_cases h1 : tcv.man = 0 <;> by_cases h2 : tdv.man = 0 <;>
    simp [h1, h2])

lemma avg_ne_net (f : PyFloat) : avgTipStr f ≠ netTipStr := by
  intro h
  have hd : some 'A' = some 'N' := by
    rw [show some 'A' = (avgTipStr f).data.head? from rfl, h]
    rfl
  exact absurd hd (by decide)

lemma atm_ne_net (n : Nat) : atmTipStr n ≠ netTipStr := by
  intro h
  have hd : some 'A' = some 'N' := by
    rw [show some 'A' = (atmTipStr n).data.head? from rfl, h]
    rfl
  exact absurd hd (by decide)

lemma upi_ne_net (n : Nat) : upiTipStr n ≠ netTipStr := by
  intro h
  have hd : some 'U' = some 'N' := by
    rw [show some 'U' = (upiTipStr n).data.head? from rfl, h]
    rfl
  exact absurd hd (by decide)

lemma no_ne_net : noTipStr ≠ netTipStr := by decide

lemma avg_ne_no (f : PyFloat) : avgTipStr f ≠ noTipStr := by
  intro h
  have hd : some 'A' = some 'N' := by
    rw [show some 'A' = (avgTipStr f).data.head? from rfl, h]
    rfl
  exact absurd hd (by decide)

lemma atm_ne_no (n : Nat) : atmTipStr n ≠ noTipStr := by
  intro h
  have hd : some 'A' = some 'N' := by
    rw [show some 'A' = (atmTipStr n).data.head? from rfl, h]
    rfl
  exact absurd hd (by decide)

lemma upi_ne_no (n : Nat) : upiTipStr n ≠ noTipStr := by
  intro h
  have hd : some 'U' = some 'N' := by
    rw [show some 'U' = (upiTipStr n).data.head? from rfl, h]
    rfl
  exact absurd hd (by decide)

lemma netTip_not_mem_avg (ob cb : Option PyFloat) : netTipStr ∉ avgPart ob cb := by
  rcases ob with _ | o <;> rcases cb with _ | c <;> simp [avgPart]
  exact fun h => avg_ne_net _ h.symm

lemma netTip_not_mem_cnt_atm (n : Nat) : netTipStr ∉ cntPart atmTipStr n := by
  unfold cntPart
  split <;> simp
  exact fun h => atm_ne_net _ h.symm

lemma netTip_not_mem_cnt_upi (n : Nat) : netTipStr ∉ cntPart upiTipStr n := by
  unfold cntPart
  split <;> simp
  exact fun h => upi_ne_net _ h.symm

lemma netTip_mem_netPart (tc td : Option PyFloat) :
    netTipStr ∈ netPart tc td ↔
      ∃ cv dv, tc = some cv ∧ td = some dv ∧ cv.man ≠ 0 ∧ dv.man ≠ 0 ∧
        pfLt dv cv = true := by
  rcases tc with _ | cv <;> rcases td with _ | dv
  · simp [netPart]
  · simp [netPart]
  · simp [netPart]
  · simp only [netPart]
    by_cases hcond : cv.man ≠ 0 ∧ dv.man ≠ 0 ∧ pfLt dv cv = true
    · rw [if_pos hcond]
      constructor
      · exact fun _ => ⟨cv, dv, rfl, rfl, hcond.1, hcond.2.1, hcond.2.2⟩
      · exact fun _ => List.mem_singleton.mpr rfl
    · rw [if_neg hcond]
      constructor
      · intro hmem
        exact absurd hmem (List.not_mem_nil _)
      · rintro ⟨cv2, dv2, hcv, hdv, h1, h2, h3⟩
        injection hcv with e1
        injection hdv with e2
        subst e1
        subst e2
        exact absurd ⟨h1, h2, h3⟩ hcond

/-- The net observation appears in the produced list exactly when both totals
are present and nonzero and credits numerically exceed debits. -/
lemma netTip_mem_insightsSpec (ob cb tc td : Option PyFloat) (ts : List Txn) :
    netTipStr ∈ insightsSpec ob cb tc td ts ↔
      ∃ cv dv, tc = some cv ∧ td = some dv ∧ cv.man ≠ 0 ∧ dv.man ≠ 0 ∧
        pfLt dv cv = true := by
  rw [← netTip_mem_netPart tc td]
  simp only [insightsSpec]
  split <;> rename_i hemp
  · rw [List.isEmpty_iff] at hemp
    rcases List.append_eq_nil.mp hemp with ⟨h3, h4⟩
    rw [h4]
    simp
    exact fun h => no_ne_net h.symm
  · simp only [List.mem_append]
    constructor
    · rintro (((hA | hB) | hC) | hD)
      · exact absurd hA (netTip_not_mem_avg ob cb)
      · exact absurd hB (netTip_not_mem_cnt_atm _)
      · exact absurd hC (netTip_not_mem_cnt_upi _)
      · exact hD
    · exact fun h => Or.inr h

lemma avgPart_len (ob cb : Option PyFloat) : (avgPart ob cb).length ≤ 1 := by
  rcases ob with _ | o <;> rcases cb with _ | c <;> simp [avgPart]

lemma cntPart_len (tip : Nat → String) (n : Nat) : (cntPart tip n).length ≤ 1 := by
  unfold cntPart
  split <;> simp

lemma netPart_len (tc td : Option PyFloat) : (netPart tc td).length ≤ 1 := by
  rcases tc with _ | cv <;> rcases td with _ | dv <;> simp only [netPart]
  · simp
  · simp
  · simp
  · split <;> simp

/-- The fallback never produces more than four observations, in particular at
most eight. -/
lemma insightsSpec_length_le (ob cb tc td : Option PyFloat) (ts : List Txn) :
    (insightsSpec ob cb tc td ts).length ≤ 8 := by
  simp only [insightsSpec]
  split
  · simp
  · simp only [List.length_append]
    have h1 := avgPart_len ob cb
    have h2 := cntPart_len atmTipStr (descCount ts "atm")
    have h3 := cntPart_len upiTipStr (descCount ts "upi")
    have h4 := netPart_len tc td
    omega

lemma noTip_not_mem_avg (ob cb : Option PyFloat) : noTipStr ∉ avgPart ob cb := by
  rcases ob with _ | o <;> rcases cb with _ | c <;> simp [avgPart]
  exact fun h => avg_ne_no _ h.symm

lemma noTip_not_mem_cnt_atm (n : Nat) : noTipStr ∉ cntPart atmTipStr n := by
  unfold cntPart
  split <;> simp
  exact fun h => atm_ne_no _ h.symm

lemma noTip_not_mem_cnt_upi (n : Nat) : noTipStr ∉ cntPart upiTipStr n := by
  unfold cntPart
  split <;> simp
  exact fun h => upi_ne_no _ h.symm

lemma noTip_not_mem_net (tc td : Option PyFloat) : noTipStr ∉ netPart tc td := by
  rcases tc with _ | cv <;> rcases td with _ | dv <;> simp only [netPart]
  · simp
  · simp
  · simp
  · split <;> simp
    exact no_ne_net

/-- The placeholder is the whole output exactly when no rule fired. -/
lemma placeholder_iff_insightsSpec (ob cb tc td : Option PyFloat) (ts : List Txn) :
    insightsSpec ob cb tc td ts = [noTipStr] ↔
      avgPart ob cb = [] ∧ cntPart atmTipStr (descCount ts "atm") = [] ∧
      cntPart upiTipStr (descCount ts "upi") = [] ∧ netPart tc td = [] := by
  simp only [insightsSpec]
  split <;> rename_i hemp
  · rw [List.isEmpty_iff] at hemp
    constructor
    · intro _
      rcases List.append_eq_nil.mp hemp with ⟨hab, h4⟩
      rcases List.append_eq_nil.mp hab with ⟨ha2, h3⟩
      rcases List.append_eq_nil.mp ha2 with ⟨h1, h2⟩
      exact ⟨h1, h2, h3, h4⟩
    · intro _
      rfl
  · simp only [List.isEmpty_iff] at hemp
    constructor
    · intro heq
      exfalso
      have hmem : noTipStr ∈ avgPart ob cb ++ cntPart atmTipStr (descCount ts "atm") ++
          cntPart upiTipStr (descCount ts "upi") ++ netPart tc td := by
        rw [heq]
        exact List.mem_singleton.mpr rfl
      rcases List.mem_append.mp hmem with hab | h4
      · rcases List.mem_append.mp hab with ha2 | h3
        · rcases List.mem_append.mp ha2 with h1 | h2
          · exact noTip_not_mem_avg ob cb h1
          · exact noTip_not_mem_cnt_atm _ h2
        · exact noTip_not_mem_cnt_upi _ h3
      · exact noTip_not_mem_net tc td h4
    · rintro ⟨h1, h2, h3, h4⟩
      refine absurd ?_ hemp
      rw [h1, h2, h3, h4]
      rfl

/-! ## Masking lemmas (for C8) -/

/-- Fewer than 4 digit characters: the string comes back unchanged. -/
lemma mask_lt4 (s : String) (h : (s.toList.filter isDig).length < 4) :
    _mask_account (.str s) = .str s := by
  unfold _mask_account
  cases hpt : pyTruthy (.str s)
  · simp [hpt]
  · simp only [hpt, Bool.not_true, Bool.false_eq_true, if_false, pyStr]
    rw [if_pos h]

/-- At least 4 digit characters: a fixed-format mask around the last 4. -/
lemma mask_ge4 (s : String) (h : 4 ≤ (s.toList.filter isDig).length) :
    _mask_account (.str s) =
      .str ("XXXX-XXXX-XXXX-" ++ String.mk ((s.toList.filter isDig).drop
        ((s.toList.filter isDig).length - 4))) := by
  have hpt : pyTruthy (.str s) = true := by
    rcases hs : s.data with _ | ⟨c, rest⟩
    · rw [show s.toList = s.data from rfl, hs] at h
      simp at h
    · simp [pyTruthy, hs]
  unfold _mask_account
  rw [hpt]
  simp only [Bool.not_true, Bool.false_eq_true, if_false, pyStr]
  rw [if_neg (by omega)]

/-- The digits of a masked string are exactly the 4 digits it ends with. -/
lemma mask_digits (l : List Char) (hl : ∀ c ∈ l, isDig c = true) :
    (("XXXX-XXXX-XXXX-" ++ String.mk l) : String).toList.filter isDig = l := by
  have hdata : (("XXXX-XXXX-XXXX-" ++ String.mk l) : String).toList =
      "XXXX-XXXX-XXXX-".toList ++ l := String.data_append "XXXX-XXXX-XXXX-" (String.mk l)
  rw [hdata, List.filter_append]
  rw [show "XXXX-XXXX-XXXX-".toList.filter isDig = [] from rfl]
  rw [List.filter_eq_self.mpr hl]
  rfl

/-- `_mask_account` is idempotent on strings. -/
lemma mask_idem (s : String) :
    _mask_account (_mask_account (.str s)) = _mask_account (.str s) := by
  by_cases h : (s.toList.filter isDig).length < 4
  · rw [mask_lt4 s h, mask_lt4 s h]
  · push_neg at h
    rw [mask_ge4 s h]
    set l := (s.toList.filter isDig).drop ((s.toList.filter isDig).length - 4) with hldef
    have hmem : ∀ c ∈ l, isDig c = true := by
      intro c hc
      exact List.of_mem_filter (List.mem_of_mem_drop hc)
    have hlen : l.length = 4 := by
      rw [hldef, List.length_drop]
      omega
    have hdig := mask_digits l hmem
    unfold _mask_account
    rw [show pyTruthy (.str ("XXXX-XXXX-XXXX-" ++ String.mk l)) = true from by
      have : (("XXXX-XXXX-XXXX-" ++ String.mk l) : String).data =
          "XXXX-XXXX-XXXX-".data ++ l := String.data_append _ _
      simp [pyTruthy, this]]
    simp only [Bool.not_true, Bool.false_eq_true, if_false, pyStr]
    rw [show (("XXXX-XXXX-XXXX-" ++ String.mk l) : String).toList.filter isDig = l from hdig]
    rw [if_neg (by omega), hlen]
    simp

/-! ## Shape lemmas for the coercer (for C9) -/

/-- `isinstance(x, dict)`. -/
def isDictV : PyVal → Bool
  | .dict _ => true
  | _ => false

/-- The shapes `_coerce_extracted` recognizes as carrying data: a mapping, or
a non-empty list whose first element is a mapping. -/
def recognizedShape : PyVal → Bool
  | .dict _ => true
  | .list (x :: _) => isDictV x
  | _ => false

/-- The fully-empty canonical shape. -/
def emptyShape : PyVal :=
  .dict [("Account Info", .dict []), ("Summary Values", .dict []),
         ("Transactions", .list [])]

/-- Every input coerces to a mapping with exactly the three canonical keys. -/
lemma coerce_three_keys (v : PyVal) : ∃ a s t, _coerce_extracted v =
    .dict [("Account Info", a), ("Summary Values", s), ("Transactions", t)] := by
  cases v with
  | dict kvs =>
    simp only [_coerce_extracted]
    rcases hf : dictLookup kvs "fields" with _ | b | n | f | s | xs | fkvs <;>
      exact ⟨_, _, _, rfl⟩
  | list xs =>
    rcases xs with _ | ⟨x, rest⟩
    · exact ⟨_, _, _, rfl⟩
    · cases x <;> exact ⟨_, _, _, rfl⟩
  | none => exact ⟨_, _, _, rfl⟩
  | bool b => exact ⟨_, _, _, rfl⟩
  | int n => exact ⟨_, _, _, rfl⟩
  | float f => exact ⟨_, _, _, rfl⟩
  | str s => exact ⟨_, _, _, rfl⟩

/-- Inputs of unrecognized shape coerce to the fully-empty canonical shape. -/
lemma coerce_malformed (v : PyVal) (h : recognizedShape v = false) :
    _coerce_extracted v = emptyShape := by
  cases v with
  | dict kvs => exact absurd h (by simp [recognizedShape])
  | list xs =>
    rcases xs with _ | ⟨x, rest⟩
    · rfl
    · cases x <;> first
        | rfl
        | exact absurd h (by simp [recognizedShape, isDictV])
  | none => rfl
  | bool b => rfl
  | int n => rfl
  | float f => rfl
  | str s => rfl

/-! ## Emission condition of the Heuristic Text Extractor (for C6) -/

/-- A candidate appears in the extractor output only when its date group
normalized to a truthy string and its amount group parsed to a number. -/
lemma parse_txns_only_if (text : String) (v : PyVal)
    (hv : v ∈ _local_parse_text_for_txns text) :
    ∃ span d amt a, _to_float (.str (String.mk amt)) = some a ∧
      normalizeDateStr (String.mk d) ≠ "" ∧
      v = .dict [("date", .str (normalizeDateStr (String.mk d))),
        ("description", .str (pyStripStr (String.mk span))),
        ("amount", .float a), ("balance", PyVal.none), ("category", PyVal.none)] := by
  unfold _local_parse_text_for_txns at hv
  rcases List.mem_filterMap.mp hv with ⟨m, hm, hmap⟩
  dsimp only at hmap
  split at hmap
  · rename_i a hres
    split at hmap
    · exact Option.noConfusion hmap
    · rename_i hdate
      injection hmap with hveq
      exact ⟨m.1, m.2.1, m.2.2, a, hres, hdate, hveq.symm⟩
  · exact Option.noConfusion hmap

/-! ## Concrete scenario payloads -/

/-- Scenario A: two entries with the same date, descriptions differing only
in case, amounts `"-2,000.00"` (string) and `-2000.0` (number). -/
def scenarioA : PyVal := .dict [("Transactions", .list [
  .dict [("date", .str "2025-10-05"), ("description", .str "ATM WITHDRAWAL"),
         ("amount", .str "-2,000.00")],
  .dict [("date", .str "2025-10-05"), ("description", .str "atm withdrawal"),
         ("amount", .float ⟨-2000, 0⟩)]])]

/-- The transaction Scenario A retains: the first occurrence's data. -/
def scenarioATxn : Txn := ⟨"2025-10-05", "ATM WITHDRAWAL", ⟨-2000, 0⟩, Option.none, .none⟩

/-- Scenario D: the raw text line of the extractor scenario. -/
def scenarioD : String := "2025-01-15 Grocery Store 250.75"

/-- The one candidate dict the extractor emits on Scenario D (the greedy gap
`.\x7b1,120\x7d` swallows `250.7`, leaving the amount group `"5"`). -/
def scenarioDTxnVal : PyVal :=
  .dict [("date", .str "2025-01-15"),
         ("description", .str "2025-01-15 Grocery Store 250.75"),
         ("amount", .float ⟨5, 0⟩), ("balance", PyVal.none), ("category", PyVal.none)]

/-- A payload whose transaction entry has a truthy non-string date value. -/
def cexNonStringDate : PyVal := .dict [("Transactions", .list [
  .dict [("date", .int 20251005), ("description", .str "x"), ("amount", .int 1)]])]

/-- A payload whose one transaction has amount `"0"`. -/
def cexZeroAmt : PyVal := .dict [("Transactions", .list [
  .dict [("date", .str "2025-01-01"), ("description", .str "x"), ("amount", .str "0")]])]

/-- The transaction the engine retains from `cexZeroAmt`. -/
def cexZeroTxn : Txn := ⟨"2025-01-01", "x", ⟨0, 0⟩, Option.none, .none⟩

/-- A payload whose one transaction has the date string `"hello"` (no date
pattern matches it). -/
def cexBadDate : PyVal := .dict [("Transactions", .list [
  .dict [("date", .str "hello"), ("description", .str "x"), ("amount", .int 1)]])]

/-- The transaction the engine retains from `cexBadDate`: the date is kept
verbatim. -/
def cexBadDateTxn : Txn := ⟨"hello", "x", ⟨1, 0⟩, Option.none, .none⟩

/-- An amount string of 400 nines: far past the double range, so the
program's `float()` of it is `inf`. -/
def infAmountStr : String := String.mk (List.replicate 400 '9')

/-- A payload whose one transaction has that 400-digit amount string. -/
def cexInfAmt : PyVal := .dict [("Transactions", .list [
  .dict [("date", .str "2025-01-01"), ("description", .str "x"),
         ("amount", .str infAmountStr)]])]

/-- The transaction the engine retains from `cexInfAmt` — in this embedding
with the exact decimal `10^400 - 1`, in the running program with the amount
`float("9" * 400) = inf`, a non-finite number. -/
def cexInfTxn : Txn := ⟨"2025-01-01", "x", ⟨(10 : Int) ^ 400 - 1, 0⟩, Option.none, .none⟩

/-! ## The claims -/

/-- C1: The transaction list the Reconciliation Engine returns never holds
two entries with Python-equal `(date, lowercased description, amount)` keys;
the duplicate flag of the returned quality report records whether a later
duplicate was dropped; and on Scenario A exactly the first occurrence is
retained with `duplicate_entries = true`. -/
theorem C1_dedup (p : PyVal) (q : Quality) (f : PyVal) (q1 : Quality)
    (h : _post_process_extracted p q = .ok (f, q1)) :
    (∃ ts dup, pyGetD f "Transactions" = .list (ts.map Txn.toPyVal) ∧
      ts.Pairwise (fun a b => keyEqv (txnKey a) (txnKey b) = false) ∧
      reconcile p = .ok (ts, dup) ∧ q1.duplicate_entries = dup) ∧
    _post_process_extracted scenarioA defaultQuality =
      .ok (mkFields .none .none .none .none .none
             Option.none Option.none Option.none Option.none Option.none [scenarioATxn],
           Quality.mk Option.none false ["opening_balance", "closing_balance"]
             true false Option.none []) := by
  obtain ⟨ts, dup, hrec, _, hTx, hdup⟩ := post_process_ok_spec h
  exact ⟨⟨ts, dup, hTx, (reconcile_ok_spec hrec).1, hrec, hdup⟩, rfl⟩

/-- Witness for C1 at Scenario A. -/
theorem C1_dedup_witness :
    (∃ ts dup, pyGetD (mkFields .none .none .none .none .none
        Option.none Option.none Option.none Option.none Option.none [scenarioATxn])
        "Transactions" = .list (ts.map Txn.toPyVal) ∧
      ts.Pairwise (fun a b => keyEqv (txnKey a) (txnKey b) = false) ∧
      reconcile scenarioA = .ok (ts, dup) ∧
      (Quality.mk Option.none false ["opening_balance", "closing_balance"]
        true false Option.none []).duplicate_entries = dup) ∧
    _post_process_extracted scenarioA defaultQuality =
      .ok (mkFields .none .none .none .none .none
             Option.none Option.none Option.none Option.none Option.none [scenarioATxn],
           Quality.mk Option.none false ["opening_balance", "closing_balance"]
             true false Option.none []) :=
  C1_dedup scenarioA defaultQuality
    (mkFields .none .none .none .none .none
      Option.none Option.none Option.none Option.none Option.none [scenarioATxn])
    (Quality.mk Option.none false ["opening_balance", "closing_balance"]
      true false Option.none []) rfl

/-- C2 (amended): the engine returns normally when the coerced sections are
mappings, the transaction container is iterable, and every entry's date value
is a string or falsy; the original "never throws for any payload" is refuted
by `C2_counterexample` (a truthy non-string date raises `TypeError`). -/
theorem C2_engine_total (p : PyVal) (q : Quality)
    (hacct : sectionIsDict p "Account Info")
    (hsum : sectionIsDict p "Summary Values")
    (hiter : ∃ es, pyIter (pyOr (rawTxnList p) (.list [])) = .ok es)
    (hdates : ∀ es, pyIter (pyOr (rawTxnList p) (.list [])) = .ok es →
      ∀ v ∈ es, dateFieldOk v) :
    ∃ r, _post_process_extracted p q = .ok r :=
  post_process_total q hacct hsum hiter hdates

/-- Witness for C2 at the empty payload. -/
theorem C2_engine_total_witness :
    ∃ r, _post_process_extracted (.dict []) defaultQuality = .ok r :=
  C2_engine_total (.dict []) defaultQuality ⟨[], rfl⟩ ⟨[], rfl⟩ ⟨[], rfl⟩
    (by
      intro es hes v hv
      injection hes with h
      subst h
      exact absurd hv (List.not_mem_nil v))

/-- Counterexample to C2 as stated: a truthy non-string date value makes the
engine raise instead of degrading the field. -/
theorem C2_counterexample :
    _post_process_extracted cexNonStringDate defaultQuality =
      .error "TypeError: expected string or bytes-like object" := rfl

/-- C3 (amended): every transaction the engine retains has a nonempty date
string that is a fixed point of normalization and either has the
`YYYY-MM-DD` shape or is the original string on which no date pattern
matched (kept verbatim, refuting the unconditional `YYYY-MM-DD` claim); the
amount stored in the emitted dict is exactly the value `_to_float` parsed.
That amount is NOT guaranteed finite in the running program: `float()` of an
amount string past the double range returns `inf`, which is not `None`, so
the entry is retained with a non-finite amount (second half of
`C3_counterexample`, via `pyFloatOverflows`). -/
theorem C3_dates (p : PyVal) (ts : List Txn) (dup : Bool)
    (h : reconcile p = .ok (ts, dup)) :
    ∀ t ∈ ts, t.date ≠ "" ∧ normalizeDateStr t.date = t.date ∧
      (isoMatch t.date.toList = true ∨ dateGuessSearch t.date.toList = Option.none) ∧
      txnAmtOfVal (Txn.toPyVal t) = some t.amount := by
  intro t ht
  obtain ⟨h1, h2, h3, _, _⟩ := (reconcile_ok_spec h).2.1 t ht
  exact ⟨h1, h2, h3, txnAmtOfVal_toPyVal t⟩

/-- Witness for C3 at Scenario A. -/
theorem C3_dates_witness :
    scenarioATxn.date ≠ "" ∧ normalizeDateStr scenarioATxn.date = scenarioATxn.date ∧
      (isoMatch scenarioATxn.date.toList = true ∨
        dateGuessSearch scenarioATxn.date.toList = Option.none) ∧
      txnAmtOfVal (Txn.toPyVal scenarioATxn) = some scenarioATxn.amount :=
  C3_dates scenarioA [scenarioATxn] true rfl scenarioATxn (List.mem_singleton.mpr rfl)

set_option maxRecDepth 8000 in
/-- Counterexample to C3 as stated, refuting both conjuncts of the claim:
the date `"hello"` matches no pattern, is retained verbatim, and does not
have the `YYYY-MM-DD` shape; and the 400-digit amount string is retained
with an exact value past the IEEE-754 double overflow boundary, so the
running program keeps this transaction with amount `inf` — not a finite
number. -/
theorem C3_counterexample :
    (reconcile cexBadDate = .ok ([cexBadDateTxn], false) ∧
      isoMatch cexBadDateTxn.date.toList = false) ∧
    (reconcile cexInfAmt = .ok ([cexInfTxn], false) ∧
      pyFloatOverflows cexInfTxn.amount = true) := ⟨⟨rfl, rfl⟩, rfl, rfl⟩

/-- C4 (amended): feeding the engine its own fields record reproduces the
retained transaction list exactly, provided every retained amount and balance
is nonzero and re-parses from its float repr (`refeedOk`); without that
proviso an entry can be dropped, refuting unconditional idempotence
(`C4_counterexample`: a retained amount `0.0` is falsy on re-extraction). -/
theorem C4_idempotent (p f : PyVal) (q q1 q2 : Quality)
    (h : _post_process_extracted p q = .ok (f, q1))
    (href : ∀ ts dup, reconcile p = .ok (ts, dup) → ∀ t ∈ ts, refeedOk t) :
    ∃ ts dup f2 q3, reconcile p = .ok (ts, dup) ∧
      pyGetD f "Transactions" = .list (ts.map Txn.toPyVal) ∧
      _post_process_extracted f q2 = .ok (f2, q3) ∧
      pyGetD f2 "Transactions" = .list (ts.map Txn.toPyVal) := by
  obtain ⟨ts, dup, hrec, ⟨bank, holder, num, month, atype, ob, cb, tc, td, adb, hf⟩,
    hTx, _⟩ := post_process_ok_spec h
  subst hf
  obtain ⟨f2, q3, h2, hTx2⟩ := post_process_refeed hrec (href ts dup hrec)
    bank holder num month atype ob cb tc td adb q2
  exact ⟨ts, dup, f2, q3, hrec, hTx, h2, hTx2⟩

/-- Witness for C4 at Scenario A. -/
theorem C4_idempotent_witness :
    ∃ ts dup f2 q3, reconcile scenarioA = .ok (ts, dup) ∧
      pyGetD (mkFields .none .none .none .none .none
        Option.none Option.none Option.none Option.none Option.none [scenarioATxn])
        "Transactions" = .list (ts.map Txn.toPyVal) ∧
      _post_process_extracted (mkFields .none .none .none .none .none
        Option.none Option.none Option.none Option.none Option.none [scenarioATxn])
        defaultQuality = .ok (f2, q3) ∧
      pyGetD f2 "Transactions" = .list (ts.map Txn.toPyVal) :=
  C4_idempotent scenarioA
    (mkFields .none .none .none .none .none
      Option.none Option.none Option.none Option.none Option.none [scenarioATxn])
    defaultQuality
    (Quality.mk Option.none false ["opening_balance", "closing_balance"]
      true false Option.none [])
    defaultQuality rfl
    (by
      intro ts dup hr
      rw [show reconcile scenarioA = .ok ([scenarioATxn], true) from rfl] at hr
      injection hr with hpair
      cases hpair
      intro t ht
      rw [List.mem_singleton] at ht
      subst ht
      exact ⟨by decide, rfl, fun b hb => Option.noConfusion hb⟩)

/-- Counterexample to C4 as stated: the engine retains an amount-`0.0`
transaction, but re-running it on its own fields record drops that entry. -/
theorem C4_counterexample :
    _post_process_extracted cexZeroAmt defaultQuality =
      .ok (mkFields .none .none .none .none .none Option.none Option.none Option.none
             Option.none Option.none [cexZeroTxn],
           Quality.mk Option.none false ["opening_balance", "closing_balance"]
             false false Option.none []) ∧
    _post_process_extracted (mkFields .none .none .none .none .none Option.none
        Option.none Option.none Option.none Option.none [cexZeroTxn]) defaultQuality =
      .ok (mkFields .none .none .none .none .none Option.none Option.none Option.none
             Option.none Option.none [],
           Quality.mk Option.none false
             ["transactions", "opening_balance", "closing_balance"]
             false false Option.none []) := ⟨rfl, rfl⟩

/-- C5: the retained list is non-decreasing by date string under the
lexicographic order; the sort is stable (entries with equal dates keep their
insertion order); and the comparison is total, so the comparison-failure
fallback of the source can never fire. -/
theorem C5_sorted (p : PyVal) (ts : List Txn) (dup : Bool)
    (h : reconcile p = .ok (ts, dup)) :
    ts.Pairwise txnLe ∧
    (∀ (l : List Txn) (d : String),
      (sortTxns l).filter (fun u => u.date == d) = l.filter (fun u => u.date == d)) ∧
    (∀ a b : Txn, txnLe a b ∨ txnLe b a) :=
  ⟨(reconcile_ok_spec h).2.2, fun l d => sortTxns_filter l d, txnLe_total⟩

/-- Witness for C5 at Scenario A. -/
theorem C5_sorted_witness :
    [scenarioATxn].Pairwise txnLe ∧
    (∀ (l : List Txn) (d : String),
      (sortTxns l).filter (fun u => u.date == d) = l.filter (fun u => u.date == d)) ∧
    (∀ a b : Txn, txnLe a b ∨ txnLe b a) :=
  C5_sorted scenarioA [scenarioATxn] true rfl

/-- C6 (amended): the extractor emits a candidate only when its date group
normalizes to a truthy string and its amount group parses; on Scenario D it
emits exactly one candidate with date `2025-01-15` but amount `5.0`, not
`250.75` (the greedy gap swallows `250.7`), refuting the claimed amount. -/
theorem C6_extractor (text : String) (v : PyVal)
    (hv : v ∈ _local_parse_text_for_txns text) :
    (∃ span d amt a, _to_float (.str (String.mk amt)) = some a ∧
      normalizeDateStr (String.mk d) ≠ "" ∧
      v = .dict [("date", .str (normalizeDateStr (String.mk d))),
        ("description", .str (pyStripStr (String.mk span))),
        ("amount", .float a), ("balance", PyVal.none), ("category", PyVal.none)]) ∧
    _local_parse_text_for_txns scenarioD = [scenarioDTxnVal] :=
  ⟨parse_txns_only_if text v hv, rfl⟩

/-- Witness for C6 at Scenario D. -/
theorem C6_extractor_witness :
    (∃ span d amt a, _to_float (.str (String.mk amt)) = some a ∧
      normalizeDateStr (String.mk d) ≠ "" ∧
      scenarioDTxnVal = .dict [("date", .str (normalizeDateStr (String.mk d))),
        ("description", .str (pyStripStr (String.mk span))),
        ("amount", .float a), ("balance", PyVal.none), ("category", PyVal.none)]) ∧
    _local_parse_text_for_txns scenarioD = [scenarioDTxnVal] :=
  C6_extractor scenarioD scenarioDTxnVal
    (by
      rw [show _local_parse_text_for_txns scenarioD = [scenarioDTxnVal] from rfl]
      exact List.mem_singleton.mpr rfl)

/-- Counterexample to C6 as stated: the one candidate on Scenario D carries
amount `5.0`, which is numerically different from `250.75`. -/
theorem C6_counterexample :
    (_local_parse_text_for_txns scenarioD).map txnAmtOfVal = [some ⟨5, 0⟩] ∧
    pfEqv ⟨5, 0⟩ ⟨25075, 2⟩ = false := ⟨rfl, rfl⟩

/-- C7 (amended): on every engine fields record the local fallback returns
the rule-ordered observation list `insightsSpec`; that list has at most 8
entries; the net-positive-inflow observation appears exactly when both
totals are present, both nonzero, and credits exceed debits (presence alone
is not enough, refuted by `C7_counterexample`); and the placeholder is the
whole output exactly when no rule fired. -/
theorem C7_insights (bank holder num month atype : PyVal)
    (ob cb tc td adb : Option PyFloat) (ts : List Txn) :
    _insights_local_fallback (mkFields bank holder num month atype ob cb tc td adb ts) =
      .ok (insightsSpec ob cb tc td ts) ∧
    (insightsSpec ob cb tc td ts).length ≤ 8 ∧
    (netTipStr ∈ insightsSpec ob cb tc td ts ↔
      ∃ cv dv, tc = some cv ∧ td = some dv ∧ cv.man ≠ 0 ∧ dv.man ≠ 0 ∧
        pfLt dv cv = true) ∧
    (insightsSpec ob cb tc td ts = [noTipStr] ↔
      avgPart ob cb = [] ∧ cntPart atmTipStr (descCount ts "atm") = [] ∧
      cntPart upiTipStr (descCount ts "upi") = [] ∧ netPart tc td = []) :=
  ⟨insights_mkFields bank holder num month atype ob cb tc td adb ts,
   insightsSpec_length_le ob cb tc td ts,
   netTip_mem_insightsSpec ob cb tc td ts,
   placeholder_iff_insightsSpec ob cb tc td ts⟩

/-- Counterexample to C7 as stated: credits `5000.0` and debits `0.0` are
both present and credits exceed debits, yet no net observation is emitted
(the output is the bare placeholder), because `0.0` is falsy. -/
theorem C7_counterexample :
    _insights_local_fallback (mkFields .none .none .none .none .none
      Option.none Option.none (some ⟨5000, 0⟩) (some ⟨0, 0⟩) Option.none []) =
      .ok [noTipStr] ∧
    pfLt ⟨0, 0⟩ ⟨5000, 0⟩ = true ∧ noTipStr ≠ netTipStr :=
  ⟨rfl, by decide, no_ne_net⟩

/-- C8: masking never raises (it is a total function); fewer than 4 digits
returns the input unchanged; at least 4 digits yields the fixed mask around
exactly the last 4 digits; masking is idempotent; and Scenario E holds. -/
theorem C8_mask (s : String) :
    ((s.toList.filter isDig).length < 4 → _mask_account (.str s) = .str s) ∧
    (4 ≤ (s.toList.filter isDig).length → _mask_account (.str s) =
      .str ("XXXX-XXXX-XXXX-" ++ String.mk ((s.toList.filter isDig).drop
        ((s.toList.filter isDig).length - 4)))) ∧
    _mask_account (_mask_account (.str s)) = _mask_account (.str s) ∧
    _mask_account (.str "1234567890123456") = .str "XXXX-XXXX-XXXX-3456" :=
  ⟨mask_lt4 s, mask_ge4 s, mask_idem s, rfl⟩

/-- C9 (amended): the Shape Coercer is total and always yields exactly the
three canonical keys; every unrecognized shape — not a mapping and not a
non-empty list whose FIRST element is a mapping — degrades to the fully
empty shape.  The spec's "list of mappings" wording is refuted by
`C9_counterexample`: only the first element is inspected. -/
theorem C9_coercer (v : PyVal) :
    (∃ a s t, _coerce_extracted v =
      .dict [("Account Info", a), ("Summary Values", s), ("Transactions", t)]) ∧
    (recognizedShape v = false → _coerce_extracted v = emptyShape) :=
  ⟨coerce_three_keys v, coerce_malformed v⟩

/-- Counterexample to C9 as stated: a list whose second element is not a
mapping is not "a non-empty list of mappings", yet its whole content is kept
as the Transactions section rather than degrading to the empty structure. -/
theorem C9_counterexample :
    _coerce_extracted (.list [.dict [("a", .int 1)], .int 5]) =
      .dict [("Account Info", .dict []), ("Summary Values", .dict []),
             ("Transactions", .list [.dict [("a", .int 1)], .int 5])] ∧
    (PyVal.list [.dict [("a", .int 1)], .int 5] ≠ .list []) :=
  ⟨rfl, by
    intro h
    injection h with h2
    exact List.noConfusion h2⟩

/-- C10: with a missing path the function raises `FileNotFoundError` even in
test mode (the existence check precedes the test-mode branch); with an
existing path test mode returns the fixed mock record, whose `quality` value
is an empty mapping holding none of the quality-report fields. -/
theorem C10_mock_head :
    process_bank_statement false true = .error "FileNotFoundError" ∧
    process_bank_statement true true = .ok (some _mock_output) ∧
    pyGetD _mock_output "quality" = .dict [] ∧
    (∀ k : String, pyGetD (pyGetD _mock_output "quality") k = .none) :=
  ⟨rfl, rfl, rfl, fun _ => rfl⟩
